import Mathlib

/-!
Shallow embedding of the dictionary indexing and lookup engine of
duodushu-desktop (backend/app/services/dict_manager.py,
backend/app/services/dict_service.py, backend/app/services/mdx_parser.py).

Modelling conventions:
- The registry JSON file, the SQLite index database and the managed storage
  directory are modelled together as one `EngineState`.  The engine reloads
  the registry from disk at the start of every operation; since the state
  value IS the on-disk state, a reload is the identity in the model.
- Python dicts are modelled as association lists with Python dict update
  semantics (update in place if the key exists, else append at the end).
- SQLite tables are modelled as lists of rows in insertion order; a
  `SELECT ... LIMIT 1` is the first matching row in list order.
- Bytes are `List Nat` (each element a byte value below 256).  The container
  header encoding is modelled as the default, UTF-8 (`MDXParser.get_encoding`
  returns utf-8 when the header has no Encoding field); `str.decode` with a
  strict handler is a real UTF-8 decoder returning `Option`, the
  errors-ignore handler skips invalid bytes, latin-1 maps bytes to the first
  256 code points.  Consequently the decode fallback chains never fail.
- HTML sanitization and phonetic / part-of-speech / summary extraction
  (BeautifulSoup and regular expressions over the found content) are outside
  every claim; a lookup result carries the found content before
  sanitization.
- The zip-bundle import branch is not modelled; an upload is a raw container
  file together with an optional same-stem resource-archive companion, which
  is the branch the import claims exercise.
-/

set_option maxRecDepth 10000

namespace Duodushu

/-! ## Byte strings and Python codecs -/

/-- A continuation byte of a UTF-8 sequence. -/
def isCont (b : Nat) : Bool := 0x80 ≤ b && b ≤ 0xBF

/-- Constraint on the first continuation byte, given the lead byte.  The
special cases rule out overlong encodings, surrogates and values above
U+10FFFF, exactly as a strict UTF-8 decoder does. -/
def cont1Ok (b c1 : Nat) : Bool :=
  if b = 0xE0 then 0xA0 ≤ c1 && c1 ≤ 0xBF
  else if b = 0xED then 0x80 ≤ c1 && c1 ≤ 0x9F
  else if b = 0xF0 then 0x90 ≤ c1 && c1 ≤ 0xBF
  else if b = 0xF4 then 0x80 ≤ c1 && c1 ≤ 0x8F
  else isCont c1

/-- Strict UTF-8 decoding (`bytes.decode("utf-8")`): fails on any invalid
sequence. -/
def utf8Decode : List Nat → Option (List Char)
  | [] => some []
  | b :: rest =>
    if b < 0x80 then (utf8Decode rest).map (Char.ofNat b :: ·)
    else if 0xC2 ≤ b && b ≤ 0xDF then
      match rest with
      | c1 :: r2 =>
        if cont1Ok b c1 then
          (utf8Decode r2).map (Char.ofNat ((b - 0xC0) * 0x40 + (c1 - 0x80)) :: ·)
        else none
      | [] => none
    else if 0xE0 ≤ b && b ≤ 0xEF then
      match rest with
      | c1 :: c2 :: r2 =>
        if cont1Ok b c1 && isCont c2 then
          (utf8Decode r2).map
            (Char.ofNat ((b - 0xE0) * 0x1000 + (c1 - 0x80) * 0x40 + (c2 - 0x80)) :: ·)
        else none
      | _ => none
    else if 0xF0 ≤ b && b ≤ 0xF4 then
      match rest with
      | c1 :: c2 :: c3 :: r2 =>
        if cont1Ok b c1 && isCont c2 && isCont c3 then
          (utf8Decode r2).map
            (Char.ofNat ((b - 0xF0) * 0x40000 + (c1 - 0x80) * 0x1000 +
              (c2 - 0x80) * 0x40 + (c3 - 0x80)) :: ·)
        else none
      | _ => none
    else none

/-- UTF-8 decoding with `errors="ignore"`: invalid lead bytes are skipped,
so the decode never fails. -/
def utf8Ignore : List Nat → List Char
  | [] => []
  | b :: rest =>
    if b < 0x80 then Char.ofNat b :: utf8Ignore rest
    else if 0xC2 ≤ b && b ≤ 0xDF then
      match rest with
      | c1 :: r2 =>
        if cont1Ok b c1 then Char.ofNat ((b - 0xC0) * 0x40 + (c1 - 0x80)) :: utf8Ignore r2
        else utf8Ignore (c1 :: r2)
      | [] => []
    else if 0xE0 ≤ b && b ≤ 0xEF then
      match rest with
      | c1 :: c2 :: r2 =>
        if cont1Ok b c1 && isCont c2 then
          Char.ofNat ((b - 0xE0) * 0x1000 + (c1 - 0x80) * 0x40 + (c2 - 0x80)) :: utf8Ignore r2
        else utf8Ignore (c1 :: c2 :: r2)
      | [c1] => utf8Ignore [c1]
      | [] => []
    else if 0xF0 ≤ b && b ≤ 0xF4 then
      match rest with
      | c1 :: c2 :: c3 :: r2 =>
        if cont1Ok b c1 && isCont c2 && isCont c3 then
          Char.ofNat ((b - 0xF0) * 0x40000 + (c1 - 0x80) * 0x1000 +
            (c2 - 0x80) * 0x40 + (c3 - 0x80)) :: utf8Ignore r2
        else utf8Ignore (c1 :: c2 :: c3 :: r2)
      | [c1, c2] => utf8Ignore [c1, c2]
      | [c1] => utf8Ignore [c1]
      | [] => []
    else utf8Ignore rest
termination_by bs => bs.length
decreasing_by all_goals simp_wf <;> omega

/-- Latin-1 decoding: each byte maps to the code point of the same value,
never failing. -/
def latin1 (bs : List Nat) : String := String.mk (bs.map Char.ofNat)

/-- The decode chain of `MDXParser.parse` for keys and content under the
default UTF-8 encoding: strict UTF-8, falling back to UTF-8 with
`errors="ignore"`.  (The final latin-1 fallback of the source is
unreachable because the ignore handler never raises.) -/
def pyDecode (bs : List Nat) : String :=
  match utf8Decode bs with
  | some cs => String.mk cs
  | none => String.mk (utf8Ignore bs)

/-- The decode chain of `MDXParser.get_content_by_word`: strict UTF-8,
falling back to latin-1 with `errors="ignore"` (which never fails). -/
def pyDecodeLatinFallback (bs : List Nat) : String :=
  match utf8Decode bs with
  | some cs => String.mk cs
  | none => latin1 bs

/-- UTF-8 encoding of one character (`str.encode("utf-8")`). -/
def encodeChar (c : Char) : List Nat :=
  let n := c.toNat
  if n < 0x80 then [n]
  else if n < 0x800 then [0xC0 + n / 0x40, 0x80 + n % 0x40]
  else if n < 0x10000 then
    [0xE0 + n / 0x1000, 0x80 + (n / 0x40) % 0x40, 0x80 + n % 0x40]
  else
    [0xF0 + n / 0x40000, 0x80 + (n / 0x1000) % 0x40, 0x80 + (n / 0x40) % 0x40,
      0x80 + n % 0x40]

/-- UTF-8 encoding of a string. -/
def encodeUtf8 (s : String) : List Nat := (s.toList.map encodeChar).flatten

/-! ## Python assoc-map and small string helpers -/

/-- First value stored under a key (Python `d[k]` / `k in d`). -/
def pyFind {κ α : Type} [DecidableEq κ] : List (κ × α) → κ → Option α
  | [], _ => none
  | p :: rest, k => if p.1 = k then some p.2 else pyFind rest k

/-- Python dict assignment `d[k] = v`: update in place if the key exists,
else append the new key at the end. -/
def pySet {κ α : Type} [DecidableEq κ] : List (κ × α) → κ → α → List (κ × α)
  | [], k, v => [(k, v)]
  | p :: rest, k, v => if p.1 = k then (k, v) :: rest else p :: pySet rest k v

/-- Boolean membership in a list of naturals. -/
def bmem (x : Nat) : List Nat → Bool
  | [] => false
  | y :: rest => x == y || bmem x rest

/-- Boolean membership in a list of strings. -/
def smem (x : String) : List String → Bool
  | [] => false
  | y :: rest => x == y || smem x rest

/-- `str.lower()` (per-character lowering; ASCII scope of the embedding).
Defined over the character list so that the kernel can evaluate it. -/
def pyLower (s : String) : String := String.mk (s.toList.map Char.toLower)

/-- `str.strip()`: drop leading and trailing whitespace. -/
def pyStrip (s : String) : String :=
  String.mk (((s.toList.dropWhile Char.isWhitespace).reverse.dropWhile
    Char.isWhitespace).reverse)

/-- `str.startswith(p)`. -/
def pyStarts (s p : String) : Bool :=
  s.toList.take p.toList.length == p.toList

/-- `str.endswith(p)`. -/
def pyEnds (s p : String) : Bool :=
  s.toList.drop (s.toList.length - p.toList.length) == p.toList

/-- The slice `word[:-n]` (empty when `n` is at least the length). -/
def pyDropRight (s : String) (n : Nat) : String :=
  String.mk (s.toList.take (s.toList.length - n))

/-- `filename.replace(".mdx", ".mdd")`: every occurrence of ".mdx" is
replaced, scanning left to right without overlap (specialised to the one
pattern the engine replaces). -/
def replaceMdxMdd : List Char → List Char
  | [] => []
  | '.' :: 'm' :: 'd' :: 'x' :: r2 => '.' :: 'm' :: 'd' :: 'd' :: replaceMdxMdd r2
  | c :: rest => c :: replaceMdxMdd rest

/-- `filename.replace(".mdx", ".mdd")` on strings. -/
def pyReplaceMdxWithMdd (s : String) : String :=
  String.mk (replaceMdxMdd s.toList)

/-- `pathlib.Path(name).stem` for a plain file name: the name with its last
suffix removed; names with no dot, a leading dot only, or a trailing dot
are returned unchanged. -/
def pyStem (s : String) : String :=
  let cs := s.toList
  let t := cs.reverse.takeWhile (fun c => !(c == '.'))
  if t.length = cs.length ∨ t.length = 0 ∨ t.length + 1 = cs.length then s
  else String.mk (cs.take (cs.length - t.length - 1))

/-- `word.lower().strip()` as performed by the lookup entry points. -/
def pyWl (w : String) : String := pyStrip (pyLower w)

/-- Python truthiness of an optional string: `None` and the empty string
are falsy. -/
def optFalsy : Option String → Bool
  | none => true
  | some s => s == ""

/-! ## Data model -/

/-- A raw container item: key bytes and optional content bytes, as yielded
by the container reader `MDX.items()`. -/
structure RawItem where
  key : List Nat
  content : Option (List Nat)
deriving DecidableEq

/-- An entry decoded by `MDXParser.parse` (offset and length are always 0
in the source and are kept on the index row instead). -/
structure ParsedEntry where
  word : String
  content : Option String
deriving DecidableEq

/-- A registry record (`config["dicts"][name]`, dicts_config.json).  The
`imported_at` timestamp carries no engine behaviour and is omitted. -/
structure DictionaryRecord where
  name : String
  filename : String
  size : Nat
  word_count : Nat
  is_active : Bool
deriving DecidableEq

/-- The registry (`dicts_config.json`). -/
structure Config where
  dicts : List (String × DictionaryRecord)
  priority : List String
  auto_index : Bool
deriving DecidableEq

/-- A row of the `dicts` descriptor table of the index database
(`created_at` is omitted; `word_count` is NULL until the first index build
completes). -/
structure DictRow where
  id : Nat
  name : String
  filename : String
  size : Nat
  word_count : Option Nat
  is_active : Bool
deriving DecidableEq

/-- A row of the `entries` table of the index database. -/
structure EntryRow where
  dict_id : Nat
  word : String
  word_lower : String
  offset : Nat
  length : Nat
  content : Option String
deriving DecidableEq

/-- The index database. -/
structure IndexDB where
  dicts : List DictRow
  entries : List EntryRow
deriving DecidableEq

/-- A file in the managed storage directory (`imported/`); `items` is the
container payload for .mdx/.mdd files and empty for other assets. -/
structure FileEntry where
  name : String
  size : Nat
  items : List RawItem
deriving DecidableEq

/-- The whole on-disk state the engine manages. -/
structure EngineState where
  config : Config
  db : IndexDB
  files : List FileEntry
deriving DecidableEq

/-- Typed errors surfaced to callers.  `validation` is the ValueError on a
duplicate import name; `notFound` is the NotFoundError the specification
ascribes to remove/toggle on an unknown name. -/
inductive DictError where
  | validation
  | notFound
deriving DecidableEq

/-- The result record of a successful import. -/
structure ImportResult where
  name : String
  word_count : Nat
  size : Nat
deriving DecidableEq

/-- A lookup result: the stored word (which may differ in case from the
query), the source dictionary name and the found content (pre-sanitization;
sanitization and metadata extraction carry no lookup-decision behaviour). -/
structure LookupResult where
  word : String
  source : String
  content : String
deriving DecidableEq

/-! ## Index database helpers -/

/-- `SELECT ... FROM dicts WHERE name = ? LIMIT 1` (fetchone). -/
def dictRowFind : List DictRow → String → Option DictRow
  | [], _ => none
  | r :: rest, n => if r.name = n then some r else dictRowFind rest n

/-- `SELECT ... FROM entries WHERE dict_id = ? AND word_lower = ? LIMIT 1`. -/
def entryFind : List EntryRow → Nat → String → Option EntryRow
  | [], _, _ => none
  | e :: rest, id, wl =>
    if e.dict_id = id ∧ e.word_lower = wl then some e else entryFind rest id wl

/-- Whether any entry row matches `(dict_id, word_lower)` — the per-id
GROUP BY COUNT(*) > 0 test of `check_sources`. -/
def hasEntry (entries : List EntryRow) (id : Nat) (wl : String) : Bool :=
  (entryFind entries id wl).isSome

/-- First file of the managed storage directory with the given name. -/
def fsFind : List FileEntry → String → Option FileEntry
  | [], _ => none
  | f :: rest, n => if f.name = n then some f else fsFind rest n

/-- Write a file into managed storage, overwriting a same-named file. -/
def fsWrite (fs : List FileEntry) (f : FileEntry) : List FileEntry :=
  f :: fs.filter (fun g => !(g.name == f.name))

/-- First container item whose key equals the given bytes
(`mdict_utils` `MDX.get`). -/
def itemsGet : List RawItem → List Nat → Option RawItem
  | [], _ => none
  | it :: rest, k => if it.key = k then some it else itemsGet rest k

/-- A fresh AUTOINCREMENT id for the `dicts` table. -/
def freshId (rows : List DictRow) : Nat :=
  (rows.map (fun r => r.id)).foldl Nat.max 0 + 1

/-- `DictManager._get_or_create_dict_id`: INSERT OR IGNORE a descriptor row
named `{dict_name}` with filename `{dict_name}.mdx`, then SELECT its id. -/
def getOrCreateDictId (db : IndexDB) (dict_name : String) (fsize : Nat) :
    IndexDB × Nat :=
  match dictRowFind db.dicts dict_name with
  | some r => (db, r.id)
  | none =>
    let newId := freshId db.dicts
    ({ db with
        dicts := db.dicts ++ [⟨newId, dict_name, dict_name ++ ".mdx", fsize, none, true⟩] },
      newId)

/-- The descriptor ids matching a name (`SELECT id FROM dicts WHERE name = ?`,
fetchall). -/
def dbRemoveIds (db : IndexDB) (n : String) : List Nat :=
  (db.dicts.filter (fun r => r.name == n)).map (fun r => r.id)

/-- The database cleanup step of `DictManager.remove_dict`: for every
descriptor row matching the name, delete its entry rows and then the
descriptor row itself. -/
def dbRemoveName (db : IndexDB) (n : String) : IndexDB :=
  { dicts := db.dicts.filter (fun r => !(bmem r.id (dbRemoveIds db n))),
    entries := db.entries.filter (fun e => !(bmem e.dict_id (dbRemoveIds db n))) }

/-! ## Container parsing and index building -/

/-- `MDXParser.parse` under the default UTF-8 encoding: decode every key
with the never-failing fallback chain; decode content the same way unless
the container is a resource archive (.mdd), whose content stays binary and
is stored as NULL. -/
def mdxParse (isMdd : Bool) (items : List RawItem) : List ParsedEntry :=
  items.map (fun it =>
    { word := pyDecode it.key,
      content := if isMdd then none else it.content.map pyDecode })

/-- `DictManager._create_index`: resolve-or-create the descriptor id, append
one entry row per parsed entry (INSERT OR REPLACE: the entries table has no
uniqueness constraint, so every insert appends; batching into transactions
of 1000 only affects durability mid-import, not the final table), then
write the stream count into `word_count` of every descriptor row matching
the name.  Returns the new database and the word count. -/
def create_index (db : IndexDB) (dict_name : String) (fsize : Nat)
    (parsed : List ParsedEntry) : IndexDB × Nat :=
  let p := getOrCreateDictId db dict_name fsize
  let rows := parsed.map (fun e =>
    EntryRow.mk p.2 e.word (pyLower e.word) 0 0 e.content)
  let wc := parsed.length
  ({ dicts := p.1.dicts.map (fun r =>
        if r.name = dict_name then { r with word_count := some wc } else r),
     entries := p.1.entries ++ rows }, wc)

/-! ## Import, remove, toggle -/

/-- An upload handed to `import_dict`: a raw container file (stem, size,
payload) and, when a same-stem `.mdd` resource archive sits alongside the
upload, that companion (size, payload). -/
structure Upload where
  stem : String
  size : Nat
  items : List RawItem
  mdd : Option (Nat × List RawItem)
deriving DecidableEq

/-- `name or mdx_file.stem`: the empty string is falsy in Python, so it
also falls back to the upload stem. -/
def importName (up : Upload) : Option String → String
  | some n => if n = "" then up.stem else n
  | none => up.stem

/-- `DictManager.import_dict` for a raw (non-archive) upload: reject a name
already registered before any side effect; otherwise copy the container
(and companion archive) into managed storage as `{name}.mdx` /
`{name}.mdd`, build the index over the container and then over the
companion, register the record, prepend the name to the priority list and
persist the registry. -/
def import_dict (st : EngineState) (up : Upload) (name : Option String) :
    EngineState × Except DictError ImportResult :=
  let dict_name := importName up name
  if (pyFind st.config.dicts dict_name).isSome then
    (st, Except.error DictError.validation)
  else
    let fs1 := fsWrite st.files ⟨dict_name ++ ".mdx", up.size, up.items⟩
    let fs2 := match up.mdd with
      | some m => fsWrite fs1 ⟨dict_name ++ ".mdd", m.1, m.2⟩
      | none => fs1
    let q := create_index st.db dict_name up.size (mdxParse false up.items)
    let db2 := match up.mdd with
      | some m => (create_index q.1 dict_name m.1 (mdxParse true m.2)).1
      | none => q.1
    let record : DictionaryRecord := ⟨dict_name, dict_name ++ ".mdx", up.size, q.2, true⟩
    ({ config := { dicts := pySet st.config.dicts dict_name record,
                   priority := dict_name :: st.config.priority,
                   auto_index := st.config.auto_index },
       db := db2, files := fs2 },
     Except.ok ⟨dict_name, q.2, up.size⟩)

/-- Removal trace events: best-effort file deletion, database cleanup, and
the single registry save at the end. -/
inductive REvent where
  | deleteFiles
  | dbCleanup
  | saveConfig
deriving DecidableEq

/-- The set of lowercase stems whose files removal purges: the name itself,
plus — when the name is registered — the stored filename stem and the
`{name}_` asset collision-avoidance variant. -/
def removeStems (st : EngineState) (n : String) : List String :=
  pyLower n :: (match pyFind st.config.dicts n with
    | some info => [pyLower (pyStem info.filename), pyLower n ++ "_"]
    | none => [])

/-- The explicitly listed files removal deletes when the name is
registered: the stored filename and its `.mdd` sibling guess. -/
def removeExplicitFiles (st : EngineState) (n : String) : List String :=
  match pyFind st.config.dicts n with
  | some info => [info.filename, pyReplaceMdxWithMdd info.filename]
  | none => []

/-- Whether removal deletes a managed-storage file of this name. -/
def fileDoomed (stems explicitDel : List String) (fname : String) : Bool :=
  smem fname explicitDel || stems.any (fun s => pyStarts (pyLower fname) s)

/-- `DictManager.remove_dict`: best-effort, never raising.  Collect purge
stems, delete matching files, delete entry and descriptor rows for every
descriptor named `n`, drop the registry record, strip every occurrence of
the name from the priority list, and save the registry once at the end.
Returns `True` even when the name was unknown to the registry. -/
def remove_dict (st : EngineState) (n : String) :
    EngineState × Except DictError Bool × List REvent :=
  let stems := removeStems st n
  let explicitDel := removeExplicitFiles st n
  let files2 := st.files.filter (fun f => !(fileDoomed stems explicitDel f.name))
  let db2 := dbRemoveName st.db n
  let dicts2 := st.config.dicts.filter (fun p => !(p.1 == n))
  let priority2 := st.config.priority.filter (fun m => !(m == n))
  ({ config := { dicts := dicts2, priority := priority2,
                 auto_index := st.config.auto_index },
     db := db2, files := files2 },
   Except.ok true,
   [REvent.deleteFiles, REvent.dbCleanup, REvent.saveConfig])

/-- `DictManager.toggle_dict`: update `is_active` and save when the name is
registered; silently do nothing otherwise (no error is raised). -/
def toggle_dict (st : EngineState) (n : String) (active : Bool) :
    EngineState × Except DictError Unit :=
  match pyFind st.config.dicts n with
  | some info =>
    ({ st with config := { st.config with
        dicts := pySet st.config.dicts n { info with is_active := active } } },
     Except.ok ())
  | none => (st, Except.ok ())

/-! ## check_sources and word_exists -/

/-- `{name: False for name in priority if name != "ECDICT"}`. -/
def initAvail (priority : List String) : List (String × Bool) :=
  priority.foldl (fun m nm => if nm = "ECDICT" then m else pySet m nm false) []

/-- The `active_dicts` map of `check_sources`: descriptor id to name, for
every registered record that is active and has a descriptor row. -/
def activeDicts (st : EngineState) : List (Nat × String) :=
  st.config.dicts.foldl (fun m p =>
    if p.2.is_active then
      match dictRowFind st.db.dicts p.1 with
      | some row => pySet m row.id p.1
      | none => m
    else m) []

/-- `DictManager.check_sources`: availability of the lowercased word per
dictionary.  The map starts from the priority list without ECDICT, all
False; every active indexed dictionary owning an entry for the word is
then set to True (which, in Python, adds the key when it is absent). -/
def check_sources (st : EngineState) (word : String) : List (String × Bool) :=
  let avail := initAvail st.config.priority
  let wl := pyWl word
  let actives := activeDicts st
  if actives.isEmpty then avail
  else actives.foldl (fun m p =>
    if hasEntry st.db.entries p.1 wl then pySet m p.2 true else m) avail

/-- `DictManager.word_exists`: the word exists in some active dictionary. -/
def word_exists (st : EngineState) (w : String) : Bool :=
  (check_sources st w).any (fun p => p.2)

/-- The availability predicate `check_sources` computes per name: the name
is registered and enabled, its descriptor row exists, and an entry row for
the lowercased word exists under its descriptor id. -/
def nameHasEntry (st : EngineState) (wl n : String) : Bool :=
  match pyFind st.config.dicts n with
  | some r =>
    r.is_active &&
      (match dictRowFind st.db.dicts n with
       | some row => hasEntry st.db.entries row.id wl
       | none => false)
  | none => false

/-! ## Lookup -/

/-- Observable side effects of a lookup, for the never-consulted claims: an
index-database query for a dictionary, or a container-file read for a
dictionary. -/
inductive LEvent where
  | indexQuery (dictName : String)
  | containerRead (dictName : String)
deriving DecidableEq

/-- `[source] if source and source != "ECDICT" else config["priority"]`. -/
def targetDicts (st : EngineState) : Option String → List String
  | some s => if s ≠ "" ∧ s ≠ "ECDICT" then [s] else st.config.priority
  | none => st.config.priority

/-- `MDXParser.get_content_by_word`: fetch by the exact word, then by its
lowercase form; decode strictly as UTF-8, falling back to latin-1. -/
def get_content_by_word (items : List RawItem) (w : String) : Option String :=
  let r := match itemsGet items (encodeUtf8 w) with
    | some it => some it
    | none => itemsGet items (encodeUtf8 (pyLower w))
  match r with
  | none => none
  | some it =>
    match it.content with
    | none => none
    | some bs => some (pyDecodeLatinFallback bs)

/-- One candidate dictionary of the `lookup_word` loop, with its event
trace: skip ECDICT, unregistered and disabled names before touching the
database; resolve the descriptor id and query the entry by `word_lower`;
on falsy index content fall back to reading the container file by the raw
word; skip the candidate when the content is still falsy. -/
def tryDictT (st : EngineState) (dn : String) (wl w : String) :
    Option (String × String) × List LEvent :=
  if dn = "ECDICT" then (none, [])
  else
    match pyFind st.config.dicts dn with
    | none => (none, [])
    | some info =>
      if info.is_active then
        match dictRowFind st.db.dicts dn with
        | none => (none, [LEvent.indexQuery dn])
        | some row =>
          match entryFind st.db.entries row.id wl with
          | none => (none, [LEvent.indexQuery dn])
          | some e =>
            let fb : Option String × List LEvent :=
              if optFalsy e.content then
                match fsFind st.files info.filename with
                | some f =>
                  (get_content_by_word f.items w,
                    [LEvent.indexQuery dn, LEvent.containerRead dn])
                | none => (e.content, [LEvent.indexQuery dn])
              else (e.content, [LEvent.indexQuery dn])
            match fb.1 with
            | some c => if c = "" then (none, fb.2) else (some (e.word, c), fb.2)
            | none => (none, fb.2)
      else (none, [])

/-- The candidate loop of `lookup_word`: first candidate producing truthy
content wins; a candidate without content is skipped and the loop
continues. -/
def firstHitT (st : EngineState) :
    List String → String → String → Option (String × String × String) × List LEvent
  | [], _, _ => (none, [])
  | d :: ds, wl, w =>
    let r := tryDictT st d wl w
    match r.1 with
    | some hit => (some (d, hit.1, hit.2), r.2)
    | none =>
      let r2 := firstHitT st ds wl w
      (r2.1, r.2 ++ r2.2)

/-- The first hit of the candidate loop, without the trace. -/
def firstHit (st : EngineState) (ds : List String) (wl w : String) :
    Option (String × String × String) :=
  (firstHitT st ds wl w).1

/-- The redirect scan `re.search(r"@@@LINK=([^\n\r]+)", content)` followed
by `.strip()` of the captured target: the leftmost position where the
marker is followed by at least one non-newline character wins, and the
greedy capture runs to the end of the line. -/
def findLinkAux : List Char → Option String
  | [] => none
  | c :: rest =>
    if (c :: rest).take 8 = "@@@LINK=".toList then
      let tgt := ((c :: rest).drop 8).takeWhile (fun ch => !(ch == '\n') && !(ch == '\r'))
      if tgt.isEmpty then findLinkAux rest
      else some (pyStrip (String.mk tgt))
    else findLinkAux rest

/-- Redirect target of a content string, if any. -/
def findLink (s : String) : Option String := findLinkAux s.toList

/-- `lookup_word` with an explicit fuel argument.  The fuel is always
`4 - depth` (see `lookup_wordT`), which makes the fuel-exhaustion arm
unreachable: whenever `depth ≤ 3` the fuel is positive.  The depth test
`depth > 3` and the recursion at `depth + 1` with `source` unchanged are
the source's redirect bound. -/
def lookupF (st : EngineState) (src : Option String) :
    Nat → String → Nat → Option LookupResult × List LEvent
  | fuel, w, d =>
    if d > 3 then (none, [])
    else
      match fuel with
      | 0 => (none, [])
      | fuel' + 1 =>
        match firstHitT st (targetDicts st src) (pyWl w) w with
        | (none, ev) => (none, ev)
        | (some (dn, ow, c), ev) =>
          match findLink c with
          | some t =>
            let r := lookupF st src fuel' t (d + 1)
            (r.1, ev ++ r.2)
          | none => (some ⟨ow, dn, c⟩, ev)

/-- `DictManager.lookup_word` with its event trace. -/
def lookup_wordT (st : EngineState) (w : String) (src : Option String)
    (d : Nat) : Option LookupResult × List LEvent :=
  lookupF st src (4 - d) w d

/-- `DictManager.lookup_word` (depth defaults to 0 at call sites). -/
def lookup_word (st : EngineState) (w : String) (src : Option String)
    (d : Nat) : Option LookupResult :=
  (lookup_wordT st w src d).1

/-! ## Lemma candidate generation (dict_service._EXCEPTION_WORDS,
_get_lemma_candidates, _validate_lemma_candidates) -/

/-- `_EXCEPTION_WORDS`: per-suffix sets of words that look inflected but
are complete words, transcribed from the source (duplicates included). -/
def exceptionWords : List (String × List String) :=
  [("ing",
    ["evening", "morning", "blessing", "meeting", "feeling", "building",
     "painting", "drawing", "clothing", "housing", "lighting", "sightseeing",
     "nothing", "something", "everything", "anything", "king", "ring", "wing",
     "thing", "bring", "string", "spring", "sing", "living", "being", "going",
     "doing", "dying", "icing", "interesting", "boring", "exciting",
     "surprising", "amazing", "charming", "alarming", "frightening",
     "worrying", "tiring"]),
   ("ed",
    ["bed", "red", "wed", "fed", "led", "shed", "sled", "bred", "need",
     "seed", "deed", "feed", "weed", "reed", "speed", "tired", "bored",
     "hired", "fired", "wired", "mired", "beloved", "wicked", "blessed",
     "learned", "aged"]),
   ("s",
    ["bus", "lens", "class", "grass", "glass", "pass", "gas", "news",
     "maths", "physics", "politics", "economics", "linguistics", "analysis",
     "crisis", "thesis", "basis", "status", "series", "species", "measles",
     "mumps", "rabies", "billiards", "darts", "bowls", "address", "process",
     "campus", "tennis", "golf", "campus"]),
   ("er",
    ["teacher", "mother", "father", "brother", "sister", "water", "paper",
     "letter", "latter", "master", "matter", "center", "number", "member",
     "leader", "player", "driver", "farmer", "speaker", "reader", "worker",
     "buyer", "seller", "owner", "computer", "camera", "picture", "feature",
     "nature", "future", "better", "latter", "matter", "center", "number",
     "order", "weather", "feather", "leather", "gather", "together"]),
   ("est",
    ["interest", "different", "important", "excellent", "consistent",
     "permanent", "significant", "transparent", "competent"])]

/-- The lowercased word is an exact member of some suffix exception set. -/
def inExceptionList (wl : String) : Bool :=
  exceptionWords.any (fun p => smem wl p.2)

/-- `str.isalpha()` restricted to the ASCII scope of the embedding. -/
def pyIsAlpha (s : String) : Bool := !s.toList.isEmpty && s.toList.all Char.isAlpha

/-- `_validate_lemma_candidates`: drop candidates shorter than two
characters, two-character candidates that are not alphabetic, and every
candidate that does not exist in any active dictionary index
(`word_exists`).  Kept candidates pass all three tests. -/
def validate_lemma_candidates (st : EngineState) (cands : List String) :
    List String :=
  cands.filter (fun lm =>
    decide (2 ≤ lm.length) && (decide (3 ≤ lm.length) || pyIsAlpha lm) &&
      word_exists st lm)

/-- `_get_lemma_candidates`: empty for exception-list words; otherwise the
suffix-rule candidates in source order (tests on the lowercased word,
slices on the original), validated against the index when requested. -/
def get_lemma_candidates (st : EngineState) (word : String)
    (validate : Bool) : List String :=
  let wl := pyLower word
  if inExceptionList wl then []
  else
    let rev := word.toList.reverse
    let cands :=
      (if pyEnds wl "ies" then [pyDropRight word 3 ++ "y"] else []) ++
      (if pyEnds wl "es" then [pyDropRight word 2] else []) ++
      (if pyEnds wl "s" && !pyEnds wl "ss" then [pyDropRight word 1] else []) ++
      (if pyEnds wl "ied" then [pyDropRight word 3 ++ "y"] else []) ++
      (if pyEnds wl "ed" then [pyDropRight word 2, pyDropRight word 1] else []) ++
      (if pyEnds wl "ing" then
        (if decide (4 < word.length) && (rev[3]? == rev[4]?) then
          [pyDropRight word 4] else []) ++
        [pyDropRight word 3 ++ "e", pyDropRight word 3]
       else []) ++
      (if pyEnds wl "er" then
        (if decide (4 < word.length) && (rev[2]? == rev[3]?) then
          [pyDropRight word 3] else []) ++
        [pyDropRight word 2]
       else []) ++
      (if pyEnds wl "est" then [pyDropRight word 3, pyDropRight word 2] else []) ++
      (if pyEnds wl "ier" then [pyDropRight word 3 ++ "y"] else []) ++
      (if pyEnds wl "iest" then [pyDropRight word 4 ++ "y"] else [])
    if validate then validate_lemma_candidates st cands else cands

/-- A registered record that is disabled, or a name unknown to the
registry: exactly the candidates `lookup_word` skips before touching the
index database or a container file. -/
def dictDisabledOrUnknown (st : EngineState) (n : String) : Bool :=
  match pyFind st.config.dicts n with
  | some r => !r.is_active
  | none => true

/-- Every stored index content carries a redirect marker (used to express
redirect-closed states such as pure redirect cycles). -/
def entryRedirects (e : EntryRow) : Bool :=
  match e.content with
  | some c => (findLink c).isSome
  | none => true

/-- Every container item decodes to content carrying a redirect marker. -/
def itemRedirects (it : RawItem) : Bool :=
  match it.content with
  | some bs => (findLink (pyDecodeLatinFallback bs)).isSome
  | none => true

/-! ## Concrete states used by witnesses and counterexamples -/

/-- An empty engine state (fresh installation). -/
def stEmpty : EngineState :=
  { config := { dicts := [], priority := ["ECDICT"], auto_index := true },
    db := { dicts := [], entries := [] }, files := [] }

/-- C1 witness state: two redirect entries forming a cycle inside one
enabled dictionary. -/
def stW1 : EngineState :=
  { config := { dicts := [("D", ⟨"D", "D.mdx", 10, 2, true⟩)],
                priority := ["D"], auto_index := true },
    db := { dicts := [⟨1, "D", "D.mdx", 10, some 2, true⟩],
            entries := [⟨1, "a", "a", 0, 0, some "@@@LINK=b"⟩,
                        ⟨1, "b", "b", 0, 0, some "@@@LINK=a"⟩] },
    files := [] }

/-- C2 witness state: priority `[A, B]`, both enabled, only A holding
"running". -/
def stW2 : EngineState :=
  { config := { dicts := [("A", ⟨"A", "A.mdx", 10, 1, true⟩),
                          ("B", ⟨"B", "B.mdx", 10, 1, true⟩)],
                priority := ["A", "B"], auto_index := true },
    db := { dicts := [⟨1, "A", "A.mdx", 10, some 1, true⟩,
                      ⟨2, "B", "B.mdx", 10, some 1, true⟩],
            entries := [⟨1, "running", "running", 0, 0, some "<b>run</b>"⟩,
                        ⟨2, "running", "running", 0, 0, some "<b>other</b>"⟩] },
    files := [] }

/-- C3 witness state: "B" is registered but disabled and would otherwise
have the entry. -/
def stW3 : EngineState :=
  { config := { dicts := [("A", ⟨"A", "A.mdx", 10, 1, true⟩),
                          ("B", ⟨"B", "B.mdx", 10, 1, false⟩)],
                priority := ["B", "A"], auto_index := true },
    db := { dicts := [⟨1, "A", "A.mdx", 10, some 1, true⟩,
                      ⟨2, "B", "B.mdx", 10, some 1, false⟩],
            entries := [⟨2, "cat", "cat", 0, 0, some "<b>B cat</b>"⟩,
                        ⟨1, "cat", "cat", 0, 0, some "<b>A cat</b>"⟩] },
    files := [] }

/-- C5 state: "ghost" is unknown to the registry while descriptor rows,
entry rows and a file still exist for it (drift). -/
def stC5 : EngineState :=
  { config := { dicts := [], priority := ["ECDICT"], auto_index := true },
    db := { dicts := [⟨1, "ghost", "ghost.mdx", 5, some 1, true⟩],
            entries := [⟨1, "a", "a", 0, 0, some "x"⟩] },
    files := [⟨"ghost.mdx", 5, []⟩] }

/-- C7 state: a dictionary named "A" is already registered. -/
def stC7 : EngineState :=
  { config := { dicts := [("A", ⟨"A", "A.mdx", 10, 1, true⟩)],
                priority := ["A", "ECDICT"], auto_index := true },
    db := { dicts := [⟨1, "A", "A.mdx", 10, some 1, true⟩], entries := [] },
    files := [⟨"A.mdx", 10, []⟩] }

/-- C7/C8 upload: a raw container whose stem is "A", with two entries. -/
def upA : Upload :=
  { stem := "A", size := 9,
    items := [⟨[99, 97, 116], some [104, 105]⟩, ⟨[100, 111, 103], some [104, 111]⟩],
    mdd := none }

/-- C10 witness state: "B" sits in the priority list without any index
entry for the queried word, "A" is active and indexed but absent from the
priority list. -/
def stW10 : EngineState :=
  { config := { dicts := [("A", ⟨"A", "A.mdx", 10, 1, true⟩),
                          ("B", ⟨"B", "B.mdx", 10, 1, true⟩)],
                priority := ["ECDICT", "B"], auto_index := true },
    db := { dicts := [⟨1, "A", "A.mdx", 10, some 1, true⟩,
                      ⟨2, "B", "B.mdx", 10, some 1, true⟩],
            entries := [⟨1, "dog", "dog", 0, 0, some "<b>dog</b>"⟩] },
    files := [] }

/-! ## Helper lemmas -/

theorem pyFind_pySet_self {α : Type} (m : List (String × α)) (k : String)
    (v : α) : pyFind (pySet m k v) k = some v := by
  induction m with
  | nil => simp [pySet, pyFind]
  | cons p rest ih =>
    by_cases h : p.1 = k
    · simp [pySet, pyFind, h]
    · simp [pySet, pyFind, h, ih]

theorem pyFind_pySet_ne {α : Type} (m : List (String × α)) (k k' : String)
    (v : α) (h : k' ≠ k) : pyFind (pySet m k v) k' = pyFind m k' := by
  induction m with
  | nil => simp [pySet, pyFind, Ne.symm h]
  | cons p rest ih =>
    by_cases hp : p.1 = k
    · subst hp
      simp [pySet, pyFind, Ne.symm h]
    · simp [pySet, pyFind, hp, ih]

theorem pyFind_none_iff {α : Type} (m : List (String × α)) (k : String) :
    pyFind m k = none ↔ ∀ p ∈ m, p.1 ≠ k := by
  induction m with
  | nil => simp [pyFind]
  | cons p rest ih =>
    by_cases h : p.1 = k <;> simp [pyFind, h, ih]

theorem pyFind_filter_self {α : Type} (m : List (String × α)) (n : String) :
    pyFind (m.filter (fun p => !(p.1 == n))) n = none := by
  induction m with
  | nil => simp [pyFind]
  | cons p rest ih =>
    by_cases h : p.1 = n <;> simp [pyFind, h, ih]

theorem filter_of_pyFind_none {α : Type} (m : List (String × α)) (n : String)
    (h : pyFind m n = none) : m.filter (fun p => !(p.1 == n)) = m := by
  rw [List.filter_eq_self]
  intro p hp
  simpa using (pyFind_none_iff m n).1 h p hp

theorem bmem_iff (x : Nat) (l : List Nat) : bmem x l = true ↔ x ∈ l := by
  induction l with
  | nil => simp [bmem]
  | cons y rest ih => simp [bmem, ih]

theorem smem_iff (x : String) (l : List String) : smem x l = true ↔ x ∈ l := by
  induction l with
  | nil => simp [smem]
  | cons y rest ih => simp [smem, ih]

theorem filter_bool_idem {α : Type} (p : α → Bool) (l : List α) :
    (l.filter p).filter p = l.filter p := by
  induction l with
  | nil => rfl
  | cons x rest ih =>
    by_cases h : p x <;> simp [List.filter, h, ih]

/-! ## C7: duplicate-name import aborts with a validation error before any
side effect -/

/-- C7: when the desired name is already registered, `import_dict` raises
the naming-collision (validation) error and performs no side effect — the
returned state is the input state unchanged: no file written, no index
rows, no registry change. -/
theorem C7_duplicate_import_rejected (st : EngineState) (up : Upload)
    (name : Option String) (r : DictionaryRecord)
    (h : pyFind st.config.dicts (importName up name) = some r) :
    import_dict st up name = (st, Except.error DictError.validation) := by
  simp [import_dict, h]

/-- C7 witness: importing an upload whose stem "A" is already registered
fails with the validation error and leaves the state untouched. -/
theorem C7_witness :
    pyFind stC7.config.dicts (importName upA none) = some ⟨"A", "A.mdx", 10, 1, true⟩ ∧
    import_dict stC7 upA none = (stC7, Except.error DictError.validation) :=
  ⟨rfl, C7_duplicate_import_rejected stC7 upA none ⟨"A", "A.mdx", 10, 1, true⟩ rfl⟩

/-! ## C8: successful import registers the record and prepends the name -/

/-- C8: after every successful import, the persisted registry maps the new
name to its DictionaryRecord (filename `{name}.mdx`, the upload size, the
indexed word count, enabled), and the new priority list is exactly the new
name consed onto the previous priority list — the name comes first and
every previously present name follows in its prior order. -/
theorem C8_import_registers_and_prepends (st : EngineState) (up : Upload)
    (name : Option String) (st2 : EngineState) (res : ImportResult)
    (h : import_dict st up name = (st2, Except.ok res)) :
    pyFind st2.config.dicts res.name =
      some ⟨res.name, res.name ++ ".mdx", up.size, res.word_count, true⟩ ∧
    st2.config.priority = res.name :: st.config.priority := by
  unfold import_dict at h
  by_cases hd : (pyFind st.config.dicts (importName up name)).isSome
  · rw [if_pos hd] at h
    exact absurd (congrArg (fun q => q.2) h) (by simp)
  · rw [if_neg hd] at h
    obtain ⟨h1, h2⟩ := Prod.mk.injEq .. ▸ h
    obtain rfl : res = ⟨importName up name,
        (create_index st.db (importName up name) up.size
          (mdxParse false up.items)).2, up.size⟩ := by
      simpa using congrArg (fun e => match e with
        | Except.ok r => r
        | Except.error _ => res) h2.symm
    subst h1
    exact ⟨pyFind_pySet_self .., rfl⟩

/-- C8 witness: a concrete successful import of "A" into the empty state
registers the record and prepends "A" to the priority list. -/
theorem C8_witness :
    pyFind (import_dict stEmpty upA none).1.config.dicts "A" =
      some ⟨"A", "A.mdx", 9, 2, true⟩ ∧
    (import_dict stEmpty upA none).1.config.priority = ["A", "ECDICT"] :=
  C8_import_registers_and_prepends stEmpty upA none
    (import_dict stEmpty upA none).1 ⟨"A", 2, 9⟩ rfl

/-! ## C9: what word_count counts -/

/-- C9 counterexample: an entry whose key is empty is not skipped — it is
decoded to the empty word, written to the index, and counted toward
word_count (the claim expects a count of 0 and no row). -/
theorem C9_counterexample :
    (create_index ⟨[], []⟩ "D" 9 (mdxParse false [⟨[], some [104, 105]⟩])).2 = 1 ∧
    (create_index ⟨[], []⟩ "D" 9 (mdxParse false [⟨[], some [104, 105]⟩])).1.entries =
      [EntryRow.mk 1 "" "" 0 0 (some "hi")] := by
  exact ⟨by rfl, by decide⟩

/-- C9 amended: the index builder counts and writes every entry yielded by
the reader stream — the key decode chain falls back to ignore-mode
decoding and never fails, so entries with empty or undecodable keys are
kept (decoded best-effort), not skipped: word_count equals the stream
length and exactly one row is appended per stream entry. -/
theorem C9_amended_every_entry_counted (db : IndexDB) (dict_name : String)
    (fsize : Nat) (isMdd : Bool) (items : List RawItem) :
    (create_index db dict_name fsize (mdxParse isMdd items)).2 = items.length ∧
    (create_index db dict_name fsize (mdxParse isMdd items)).1.entries.length =
      db.entries.length + items.length := by
  unfold create_index mdxParse getOrCreateDictId
  cases h : dictRowFind db.dicts dict_name <;> simp

/-! ## Shared removal lemmas -/

theorem filter_eq_nil_of {α : Type} (p : α → Bool) (l : List α)
    (h : ∀ a ∈ l, p a = false) : l.filter p = [] := by
  induction l with
  | nil => rfl
  | cons x rest ih =>
    rw [List.filter_cons, h x (by simp)]
    exact ih (fun a ha => h a (by simp [ha]))

theorem dbRemoveName_no_residue (db : IndexDB) (n : String) :
    (dbRemoveName db n).dicts.filter (fun r => r.name == n) = [] := by
  apply filter_eq_nil_of
  intro r hr
  obtain ⟨hrl, hf⟩ := List.mem_filter.mp hr
  cases hn : (r.name == n) with
  | false => rfl
  | true =>
    exfalso
    have hmem : r.id ∈ dbRemoveIds db n := by
      unfold dbRemoveIds
      exact List.mem_map.mpr ⟨r, List.mem_filter.mpr ⟨hrl, hn⟩, rfl⟩
    rw [← bmem_iff] at hmem
    simp [hmem] at hf

theorem dbRemoveIds_idem (db : IndexDB) (n : String) :
    dbRemoveIds (dbRemoveName db n) n = [] := by
  unfold dbRemoveIds
  rw [dbRemoveName_no_residue]
  rfl

theorem dbRemoveName_idem (db : IndexDB) (n : String) :
    dbRemoveName (dbRemoveName db n) n = dbRemoveName db n := by
  have h0 := dbRemoveIds_idem db n
  have hd : (dbRemoveName (dbRemoveName db n) n).dicts = (dbRemoveName db n).dicts := by
    show ((dbRemoveName db n).dicts.filter
      (fun r => !(bmem r.id (dbRemoveIds (dbRemoveName db n) n)))) = _
    rw [h0, List.filter_eq_self]
    intro a _
    rfl
  have he : (dbRemoveName (dbRemoveName db n) n).entries = (dbRemoveName db n).entries := by
    show ((dbRemoveName db n).entries.filter
      (fun e => !(bmem e.dict_id (dbRemoveIds (dbRemoveName db n) n)))) = _
    rw [h0, List.filter_eq_self]
    intro a _
    rfl
  calc dbRemoveName (dbRemoveName db n) n
      = ⟨(dbRemoveName (dbRemoveName db n) n).dicts,
          (dbRemoveName (dbRemoveName db n) n).entries⟩ := rfl
    _ = ⟨(dbRemoveName db n).dicts, (dbRemoveName db n).entries⟩ := by rw [hd, he]
    _ = dbRemoveName db n := rfl

theorem remove_dict_unregistered (st : EngineState) (n : String)
    (h : pyFind st.config.dicts n = none) :
    remove_dict st n =
      ({ config := { dicts := st.config.dicts,
                     priority := st.config.priority.filter (fun m => !(m == n)),
                     auto_index := st.config.auto_index },
         db := dbRemoveName st.db n,
         files := st.files.filter
           (fun f => !(pyStarts (pyLower f.name) (pyLower n))) },
       Except.ok true, [REvent.deleteFiles, REvent.dbCleanup, REvent.saveConfig]) := by
  unfold remove_dict
  simp only [removeStems, removeExplicitFiles, h]
  congr 1
  congr 1
  · congr 1
    exact filter_of_pyFind_none _ _ h
  · apply List.filter_congr
    intro f _
    simp [fileDoomed, smem]

/-! ## C5: remove/toggle on an unknown name -/

/-- C5 counterexample: with "ghost" unknown to the registry but leftover
rows and files present, `remove_dict` does not raise NotFoundError — it
returns True — and it does have side effects (the leftover state is
cleaned); `toggle_dict` does not raise either. -/
theorem C5_counterexample :
    (remove_dict stC5 "ghost").2.1 = Except.ok true ∧
    (remove_dict stC5 "ghost").1 ≠ stC5 ∧
    (toggle_dict stC5 "ghost" false).2 = Except.ok () := by
  refine ⟨rfl, ?_, rfl⟩
  decide

/-- C5 amended: for a name not present in the registry, toggle raises
nothing and performs no side effect at all, while remove raises nothing,
returns True, and performs best-effort cleanup only: the registry map is
untouched, the name is stripped from the priority list, matching leftover
descriptor/entry rows are deleted, and files whose lowercased name starts
with the lowercased dictionary name are deleted. -/
theorem C5_amended (st : EngineState) (n : String) (b : Bool)
    (h : pyFind st.config.dicts n = none) :
    toggle_dict st n b = (st, Except.ok ()) ∧
    (remove_dict st n).2.1 = Except.ok true ∧
    (remove_dict st n).1 =
      { config := { dicts := st.config.dicts,
                    priority := st.config.priority.filter (fun m => !(m == n)),
                    auto_index := st.config.auto_index },
        db := dbRemoveName st.db n,
        files := st.files.filter
          (fun f => !(pyStarts (pyLower f.name) (pyLower n))) } := by
  refine ⟨?_, rfl, ?_⟩
  · unfold toggle_dict
    rw [h]
  · rw [remove_dict_unregistered st n h]

/-- C5 witness for the amended theorem, at the drifted concrete state. -/
theorem C5_witness :
    pyFind stC5.config.dicts "ghost" = none ∧
    toggle_dict stC5 "ghost" false = (stC5, Except.ok ()) :=
  ⟨rfl, (C5_amended stC5 "ghost" false rfl).1⟩

/-! ## C6: the remove contract -/

/-- C6: `remove_dict` returns the boolean True; afterwards the registry no
longer maps the name and no occurrence of the name survives in the
priority list; the call is idempotent — repeating it on the resulting
(possibly drifted) state returns the same state again — and its trace
saves the registry exactly once, as the final step. -/
theorem C6_remove_contract (st : EngineState) (n : String) :
    (remove_dict st n).2.1 = Except.ok true ∧
    pyFind (remove_dict st n).1.config.dicts n = none ∧
    n ∉ (remove_dict st n).1.config.priority ∧
    remove_dict (remove_dict st n).1 n =
      ((remove_dict st n).1, Except.ok true,
        [REvent.deleteFiles, REvent.dbCleanup, REvent.saveConfig]) ∧
    (remove_dict st n).2.2.count REvent.saveConfig = 1 ∧
    (remove_dict st n).2.2.getLast? = some REvent.saveConfig := by
  refine ⟨rfl, pyFind_filter_self _ _, ?_, ?_, rfl, rfl⟩
  · show n ∉ st.config.priority.filter _
    simp [List.mem_filter]
  · have hnone : pyFind (remove_dict st n).1.config.dicts n = none :=
      pyFind_filter_self _ _
    have hpr : ((remove_dict st n).1.config.priority).filter (fun m => !(m == n)) =
        (remove_dict st n).1.config.priority := by
      show ((st.config.priority.filter _).filter _) = _
      exact filter_bool_idem _ _
    have hdb : dbRemoveName (remove_dict st n).1.db n = (remove_dict st n).1.db := by
      show dbRemoveName (dbRemoveName st.db n) n = _
      exact dbRemoveName_idem _ _
    have hfs : ((remove_dict st n).1.files).filter
        (fun f => !(pyStarts (pyLower f.name) (pyLower n))) =
        (remove_dict st n).1.files := by
      rw [List.filter_eq_self]
      intro f hf
      have hf2 : f ∈ st.files.filter
          (fun g => !(fileDoomed (removeStems st n) (removeExplicitFiles st n) g.name)) := hf
      obtain ⟨-, hk⟩ := List.mem_filter.mp hf2
      simp only [fileDoomed, removeStems, Bool.not_eq_eq_eq_not, Bool.not_true,
        Bool.or_eq_false_iff, List.any_cons, Bool.not_eq_true'] at hk
      simp [hk.2.1]
    calc remove_dict (remove_dict st n).1 n
        = ({ config := { dicts := (remove_dict st n).1.config.dicts,
                         priority := ((remove_dict st n).1.config.priority).filter
                           (fun m => !(m == n)),
                         auto_index := (remove_dict st n).1.config.auto_index },
             db := dbRemoveName (remove_dict st n).1.db n,
             files := ((remove_dict st n).1.files).filter
               (fun f => !(pyStarts (pyLower f.name) (pyLower n))) },
           Except.ok true,
           [REvent.deleteFiles, REvent.dbCleanup, REvent.saveConfig]) := by
          rw [remove_dict_unregistered _ n hnone]
      _ = ((remove_dict st n).1, Except.ok true,
           [REvent.deleteFiles, REvent.dbCleanup, REvent.saveConfig]) := by
          rw [hpr, hdb, hfs]

/-! ## Lookup unfolding and provenance lemmas -/

theorem lookup_wordT_eq (st : EngineState) (w : String) (src : Option String)
    (d : Nat) :
    lookup_wordT st w src d =
      if 3 < d then (none, [])
      else
        match firstHitT st (targetDicts st src) (pyWl w) w with
        | (none, ev) => (none, ev)
        | (some (dn, ow, c), ev) =>
          match findLink c with
          | some t =>
            let r := lookup_wordT st t src (d + 1)
            (r.1, ev ++ r.2)
          | none => (some ⟨ow, dn, c⟩, ev) := by
  by_cases h : 3 < d
  · have h4 : 4 - d = 0 := by omega
    unfold lookup_wordT
    rw [h4]
    unfold lookupF
    simp only [if_pos h]
  · have hf : 4 - d = (4 - (d + 1)) + 1 := by omega
    unfold lookup_wordT
    rw [hf]
    rfl

theorem entryFind_mem (l : List EntryRow) (id : Nat) (wl : String)
    (e : EntryRow) (h : entryFind l id wl = some e) : e ∈ l := by
  induction l with
  | nil => simp [entryFind] at h
  | cons x rest ih =>
    by_cases hx : x.dict_id = id ∧ x.word_lower = wl
    · rw [entryFind, if_pos hx] at h
      exact (Option.some.injEq .. ▸ h) ▸ List.mem_cons_self x rest
    · rw [entryFind, if_neg hx] at h
      exact List.mem_cons_of_mem x (ih h)

theorem fsFind_mem (l : List FileEntry) (n : String) (f : FileEntry)
    (h : fsFind l n = some f) : f ∈ l := by
  induction l with
  | nil => simp [fsFind] at h
  | cons x rest ih =>
    by_cases hx : x.name = n
    · rw [fsFind, if_pos hx] at h
      exact (Option.some.injEq .. ▸ h) ▸ List.mem_cons_self x rest
    · rw [fsFind, if_neg hx] at h
      exact List.mem_cons_of_mem x (ih h)

theorem itemsGet_mem (l : List RawItem) (k : List Nat) (it : RawItem)
    (h : itemsGet l k = some it) : it ∈ l := by
  induction l with
  | nil => simp [itemsGet] at h
  | cons x rest ih =>
    by_cases hx : x.key = k
    · rw [itemsGet, if_pos hx] at h
      exact (Option.some.injEq .. ▸ h) ▸ List.mem_cons_self x rest
    · rw [itemsGet, if_neg hx] at h
      exact List.mem_cons_of_mem x (ih h)

theorem get_content_provenance (items : List RawItem) (w c : String)
    (h : get_content_by_word items w = some c) :
    ∃ it ∈ items, ∃ bs, it.content = some bs ∧ c = pyDecodeLatinFallback bs := by
  unfold get_content_by_word at h
  rcases h1 : itemsGet items (encodeUtf8 w) with _ | it1
  · rcases h2 : itemsGet items (encodeUtf8 (pyLower w)) with _ | it2
    · simp [h1, h2] at h
    · simp only [h1, h2] at h
      rcases h3 : it2.content with _ | bs
      · simp [h3] at h
      · simp only [h3, Option.some.injEq] at h
        exact ⟨it2, itemsGet_mem _ _ _ h2, bs, h3, h.symm⟩
  · simp only [h1] at h
    rcases h3 : it1.content with _ | bs
    · simp [h3] at h
    · simp only [h3, Option.some.injEq] at h
      exact ⟨it1, itemsGet_mem _ _ _ h1, bs, h3, h.symm⟩

theorem tryDictT_provenance (st : EngineState) (dn wl w ow c : String)
    (h : (tryDictT st dn wl w).1 = some (ow, c)) :
    (∃ e ∈ st.db.entries, e.content = some c) ∨
    (∃ f ∈ st.files, ∃ it ∈ f.items, ∃ bs, it.content = some bs ∧
      c = pyDecodeLatinFallback bs) := by
  unfold tryDictT at h
  by_cases h1 : dn = "ECDICT"
  · simp [h1] at h
  · simp only [if_neg h1] at h
    rcases h2 : pyFind st.config.dicts dn with _ | info
    · simp [h2] at h
    · simp only [h2] at h
      by_cases h3 : info.is_active
      · simp only [h3, if_true] at h
        rcases h4 : dictRowFind st.db.dicts dn with _ | row
        · simp [h4] at h
        · simp only [h4] at h
          rcases h5 : entryFind st.db.entries row.id wl with _ | e
          · simp [h5] at h
          · simp only [h5] at h
            by_cases h6 : optFalsy e.content
            · simp only [h6, if_true] at h
              rcases h7 : fsFind st.files info.filename with _ | f
              · simp only [h7] at h
                rcases h8 : e.content with _ | c0
                · simp [h8] at h
                · simp only [h8] at h
                  by_cases h9 : c0 = ""
                  · simp [h9] at h
                  · simp only [if_neg h9, Option.some.injEq,
                      Prod.mk.injEq] at h
                    obtain ⟨-, rfl⟩ := h
                    exact Or.inl ⟨e, entryFind_mem _ _ _ _ h5, h8⟩
              · simp only [h7] at h
                rcases h8 : get_content_by_word f.items w with _ | c0
                · simp [h8] at h
                · simp only [h8] at h
                  by_cases h9 : c0 = ""
                  · simp [h9] at h
                  · simp only [if_neg h9, Option.some.injEq,
                      Prod.mk.injEq] at h
                    obtain ⟨-, rfl⟩ := h
                    obtain ⟨it, hit, bs, hbs, hc⟩ :=
                      get_content_provenance f.items w c0 h8
                    exact Or.inr ⟨f, fsFind_mem _ _ _ h7, it, hit, bs, hbs, hc⟩
            · simp only [Bool.not_eq_true] at h6
              simp only [h6, Bool.false_eq_true, if_false] at h
              rcases h8 : e.content with _ | c0
              · simp [h8] at h
              · simp only [h8] at h
                by_cases h9 : c0 = ""
                · simp [h9] at h
                · simp only [if_neg h9, Option.some.injEq,
                    Prod.mk.injEq] at h
                  obtain ⟨-, rfl⟩ := h
                  exact Or.inl ⟨e, entryFind_mem _ _ _ _ h5, h8⟩
      · simp only [Bool.not_eq_true] at h3
        simp [h3] at h

theorem firstHitT_some (st : EngineState) (ds : List String) (wl w dn ow c : String)
    (h : (firstHitT st ds wl w).1 = some (dn, ow, c)) :
    dn ∈ ds ∧ (tryDictT st dn wl w).1 = some (ow, c) := by
  induction ds with
  | nil => simp [firstHitT] at h
  | cons x rest ih =>
    simp only [firstHitT] at h
    rcases hr : (tryDictT st x wl w).1 with _ | hit
    · simp only [hr] at h
      obtain ⟨hmem, hh⟩ := ih h
      exact ⟨List.mem_cons_of_mem x hmem, hh⟩
    · rcases hit with ⟨ha, hb⟩
      simp only [hr, Option.some.injEq, Prod.mk.injEq] at h
      obtain ⟨rfl, rfl, rfl⟩ := h
      exact ⟨List.mem_cons_self _ _, hr⟩

theorem lookup_none_of_all_redirect (st : EngineState) (src : Option String)
    (H1 : st.db.entries.all entryRedirects = true)
    (H2 : st.files.all (fun f => f.items.all itemRedirects) = true) :
    ∀ k d w, 4 - d ≤ k → lookup_word st w src d = none := by
  intro k
  induction k with
  | zero =>
    intro d w hk
    have hd : 3 < d := by omega
    unfold lookup_word
    rw [lookup_wordT_eq, if_pos hd]
  | succ k ih =>
    intro d w hk
    by_cases hd : 3 < d
    · unfold lookup_word
      rw [lookup_wordT_eq, if_pos hd]
    · unfold lookup_word
      rw [lookup_wordT_eq, if_neg hd]
      rcases hT : firstHitT st (targetDicts st src) (pyWl w) w with ⟨r1, ev⟩
      cases r1 with
      | none => rfl
      | some trip =>
        obtain ⟨dn, ow, c⟩ := trip
        have hsome : (firstHitT st (targetDicts st src) (pyWl w) w).1 =
            some (dn, ow, c) := by rw [hT]
        obtain ⟨-, htry⟩ := firstHitT_some st _ _ _ _ _ _ hsome
        have hred : (findLink c).isSome = true := by
          rcases tryDictT_provenance st dn (pyWl w) w ow c htry with
            ⟨e, he, hc⟩ | ⟨f, hf, it, hit, bs, hbs, rfl⟩
          · have := List.all_eq_true.mp H1 e he
            rw [entryRedirects, hc] at this
            exact this
          · have hfa := List.all_eq_true.mp H2 f hf
            have := List.all_eq_true.mp hfa it hit
            rw [itemRedirects, hbs] at this
            exact this
        rcases hfl : findLink c with _ | t
        · rw [hfl] at hred
          simp at hred
        · simp only [hfl]
          exact ih (d + 1) t (by omega)

/-! ## C1: redirect resolution is depth-bounded -/

/-- C1: `lookup_word` returns none as soon as the depth exceeds 3; when the
first hit of the candidate walk carries a redirect marker, it returns the
result of recursing on the stripped target with the source filter
unchanged and the depth incremented; and over any redirect-closed state
(every stored content and every container item a redirect — in particular
any pure cycle of redirect entries), lookup terminates with none at every
depth instead of recursing forever. -/
theorem C1_redirect_depth_bound :
    (∀ st w src d, 3 < d → lookup_word st w src d = none) ∧
    (∀ st w src d dn ow c t, d ≤ 3 →
      firstHit st (targetDicts st src) (pyWl w) w = some (dn, ow, c) →
      findLink c = some t →
      lookup_word st w src d = lookup_word st t src (d + 1)) ∧
    (∀ st src, st.db.entries.all entryRedirects = true →
      st.files.all (fun f => f.items.all itemRedirects) = true →
      ∀ w d, lookup_word st w src d = none) := by
  refine ⟨?_, ?_, ?_⟩
  · intro st w src d hd
    unfold lookup_word
    rw [lookup_wordT_eq, if_pos hd]
  · intro st w src d dn ow c t hd hfh hlink
    unfold lookup_word
    rw [lookup_wordT_eq, if_neg (by omega : ¬ 3 < d)]
    rcases hT : firstHitT st (targetDicts st src) (pyWl w) w with ⟨r1, ev⟩
    unfold firstHit at hfh
    rw [hT] at hfh
    simp only at hfh
    subst hfh
    simp only [hlink]
  · intro st src H1 H2 w d
    exact lookup_none_of_all_redirect st src H1 H2 (4 - d) d w (le_refl _)

/-- C1 witness: in the two-entry redirect cycle `a -> b -> a` of `stW1`,
lookup of "a" terminates with a not-found result. -/
theorem C1_witness :
    stW1.db.entries.all entryRedirects = true ∧
    lookup_word stW1 "a" none 0 = none :=
  ⟨by decide,
    C1_redirect_depth_bound.2.2 stW1 none (by decide) (by decide) "a" 0⟩

/-! ## Event-trace lemmas and C3 -/

theorem tryDictT_events (st : EngineState) (dn wl w : String) (ev : LEvent)
    (hev : ev ∈ (tryDictT st dn wl w).2) :
    ev = LEvent.indexQuery dn ∨ ev = LEvent.containerRead dn := by
  unfold tryDictT at hev
  by_cases h1 : dn = "ECDICT"
  · simp [h1] at hev
  · simp only [if_neg h1] at hev
    rcases h2 : pyFind st.config.dicts dn with _ | info
    · simp [h2] at hev
    · simp only [h2] at hev
      by_cases h3 : info.is_active
      · simp only [h3, if_true] at hev
        rcases h4 : dictRowFind st.db.dicts dn with _ | row
        · simp only [h4, List.mem_singleton] at hev
          exact Or.inl hev
        · simp only [h4] at hev
          rcases h5 : entryFind st.db.entries row.id wl with _ | e
          · simp only [h5, List.mem_singleton] at hev
            exact Or.inl hev
          · simp only [h5] at hev
            by_cases h6 : optFalsy e.content
            · simp only [h6, if_true] at hev
              rcases h7 : fsFind st.files info.filename with _ | f
              · simp only [h7] at hev
                rcases h8 : e.content with _ | c0
                · simp only [h8, List.mem_singleton] at hev
                  exact Or.inl hev
                · simp only [h8] at hev
                  by_cases h9 : c0 = ""
                  · simp only [if_pos h9, List.mem_singleton] at hev
                    exact Or.inl hev
                  · simp only [if_neg h9, List.mem_singleton] at hev
                    exact Or.inl hev
              · simp only [h7] at hev
                rcases h8 : get_content_by_word f.items w with _ | c0
                · simp only [h8, List.mem_cons, List.mem_singleton] at hev
                  rcases hev with hh | hh | hh
                  · exact Or.inl hh
                  · exact Or.inr hh
                  · simp at hh
                · simp only [h8] at hev
                  by_cases h9 : c0 = ""
                  · simp only [if_pos h9, List.mem_cons,
                      List.mem_singleton] at hev
                    rcases hev with hh | hh | hh
                    · exact Or.inl hh
                    · exact Or.inr hh
                    · simp at hh
                  · simp only [if_neg h9, List.mem_cons,
                      List.mem_singleton] at hev
                    rcases hev with hh | hh | hh
                    · exact Or.inl hh
                    · exact Or.inr hh
                    · simp at hh
            · simp only [Bool.not_eq_true] at h6
              simp only [h6, Bool.false_eq_true, if_false] at hev
              rcases h8 : e.content with _ | c0
              · simp only [h8, List.mem_singleton] at hev
                exact Or.inl hev
              · simp only [h8] at hev
                by_cases h9 : c0 = ""
                · simp only [if_pos h9, List.mem_singleton] at hev
                  exact Or.inl hev
                · simp only [if_neg h9, List.mem_singleton] at hev
                  exact Or.inl hev
      · simp only [Bool.not_eq_true] at h3
        simp [h3] at hev

theorem tryDictT_skip (st : EngineState) (dn wl w : String)
    (h : dictDisabledOrUnknown st dn = true) :
    tryDictT st dn wl w = (none, []) := by
  unfold tryDictT
  by_cases h1 : dn = "ECDICT"
  · rw [if_pos h1]
  · rw [if_neg h1]
    unfold dictDisabledOrUnknown at h
    rcases h2 : pyFind st.config.dicts dn with _ | info
    · rfl
    · rw [h2] at h
      simp only at h
      simp only [Bool.not_eq_true'] at h
      simp [h]

theorem firstHitT_events (st : EngineState) (ds : List String) (wl w : String)
    (ev : LEvent) (hev : ev ∈ (firstHitT st ds wl w).2) :
    ∃ dn ∈ ds, ev ∈ (tryDictT st dn wl w).2 := by
  induction ds with
  | nil => simp [firstHitT] at hev
  | cons x rest ih =>
    simp only [firstHitT] at hev
    rcases hr : (tryDictT st x wl w).1 with _ | hit
    · simp only [hr, List.mem_append] at hev
      rcases hev with hh | hh
      · exact ⟨x, List.mem_cons_self _ _, hh⟩
      · obtain ⟨dn, hdn, hh2⟩ := ih hh
        exact ⟨dn, List.mem_cons_of_mem x hdn, hh2⟩
    · simp only [hr] at hev
      exact ⟨x, List.mem_cons_self _ _, hev⟩

theorem lookupF_events (st : EngineState) (src : Option String) :
    ∀ fuel w d ev, ev ∈ (lookupF st src fuel w d).2 →
      ∃ w2, ev ∈ (firstHitT st (targetDicts st src) (pyWl w2) w2).2 := by
  intro fuel
  induction fuel with
  | zero =>
    intro w d ev hev
    unfold lookupF at hev
    by_cases hd : 3 < d
    · simp [if_pos hd] at hev
    · simp [if_neg hd] at hev
  | succ k ih =>
    intro w d ev hev
    unfold lookupF at hev
    by_cases hd : 3 < d
    · simp [if_pos hd] at hev
    · simp only [if_neg hd] at hev
      rcases hT : firstHitT st (targetDicts st src) (pyWl w) w with ⟨r1, tr⟩
      rw [hT] at hev
      cases r1 with
      | none =>
        simp only at hev
        exact ⟨w, by rw [hT]; exact hev⟩
      | some trip =>
        obtain ⟨dn, ow, c⟩ := trip
        simp only at hev
        rcases hfl : findLink c with _ | t
        · rw [hfl] at hev
          simp only at hev
          exact ⟨w, by rw [hT]; exact hev⟩
        · rw [hfl] at hev
          simp only [List.mem_append] at hev
          rcases hev with hh | hh
          · exact ⟨w, by rw [hT]; exact hh⟩
          · exact ih t (d + 1) ev hh

/-- C3: a dictionary whose registry record is disabled — and likewise a
candidate name unknown to the registry — is never consulted by lookup:
no index-database query and no container read carrying its name ever
appears in the lookup trace, at any depth and for any source filter. -/
theorem C3_disabled_never_consulted (st : EngineState) (w : String)
    (src : Option String) (d : Nat) (n : String)
    (h : dictDisabledOrUnknown st n = true) :
    LEvent.indexQuery n ∉ (lookup_wordT st w src d).2 ∧
    LEvent.containerRead n ∉ (lookup_wordT st w src d).2 := by
  refine ⟨fun hmem => ?_, fun hmem => ?_⟩
  · obtain ⟨w2, hw2⟩ := lookupF_events st src (4 - d) w d _ hmem
    obtain ⟨dn, -, hev⟩ := firstHitT_events st _ _ _ _ hw2
    have hdn : n = dn := by
      rcases tryDictT_events st dn _ _ _ hev with h1 | h1
      · exact LEvent.indexQuery.inj h1
      · exact absurd h1 (by simp)
    subst hdn
    rw [tryDictT_skip st n _ _ h] at hev
    simp at hev
  · obtain ⟨w2, hw2⟩ := lookupF_events st src (4 - d) w d _ hmem
    obtain ⟨dn, -, hev⟩ := firstHitT_events st _ _ _ _ hw2
    have hdn : n = dn := by
      rcases tryDictT_events st dn _ _ _ hev with h1 | h1
      · exact absurd h1 (by simp)
      · exact LEvent.containerRead.inj h1
    subst hdn
    rw [tryDictT_skip st n _ _ h] at hev
    simp at hev

/-- C3 witness: with "B" registered but disabled at the head of the
priority list, lookup of "cat" never queries the index for "B" and never
reads its container. -/
theorem C3_witness :
    dictDisabledOrUnknown stW3 "B" = true ∧
    LEvent.indexQuery "B" ∉ (lookup_wordT stW3 "cat" none 0).2 :=
  ⟨by decide,
    (C3_disabled_never_consulted stW3 "cat" none 0 "B" (by decide)).1⟩

/-! ## C2: priority order, skipping and case-insensitivity -/

theorem tryDictT_hit (st : EngineState) (dn wl w : String)
    (info : DictionaryRecord) (row : DictRow) (e : EntryRow) (c : String)
    (h1 : dn ≠ "ECDICT") (h2 : pyFind st.config.dicts dn = some info)
    (h3 : info.is_active = true) (h4 : dictRowFind st.db.dicts dn = some row)
    (h5 : entryFind st.db.entries row.id wl = some e)
    (h6 : e.content = some c) (h7 : c ≠ "") :
    (tryDictT st dn wl w).1 = some (e.word, c) := by
  have hof : optFalsy (some c) = false := by
    simpa [optFalsy] using h7
  unfold tryDictT
  simp only [if_neg h1, h2, h3, if_true, h4, h5, h6, hof, Bool.false_eq_true,
    if_false, if_neg h7]

theorem tryDictT_noentry (st : EngineState) (dn wl w : String)
    (h : ∀ row, dictRowFind st.db.dicts dn = some row →
      entryFind st.db.entries row.id wl = none) :
    (tryDictT st dn wl w).1 = none := by
  unfold tryDictT
  by_cases h1 : dn = "ECDICT"
  · simp [h1]
  · simp only [if_neg h1]
    rcases h2 : pyFind st.config.dicts dn with _ | info
    · rfl
    · simp only
      by_cases h3 : info.is_active
      · simp only [h3, if_true]
        rcases h4 : dictRowFind st.db.dicts dn with _ | row
        · rfl
        · simp only [h row h4]
      · simp only [Bool.not_eq_true] at h3
        simp [h3]

theorem tryDictT_word_irrel (st : EngineState) (dn wl : String)
    (hfs : st.files = []) (v w : String) :
    tryDictT st dn wl v = tryDictT st dn wl w := by
  unfold tryDictT
  by_cases h1 : dn = "ECDICT"
  · simp [h1]
  · simp only [if_neg h1]
    rcases h2 : pyFind st.config.dicts dn with _ | info
    · rfl
    · simp only
      by_cases h3 : info.is_active
      · simp only [h3, if_true]
        rcases h4 : dictRowFind st.db.dicts dn with _ | row
        · rfl
        · simp only
          rcases h5 : entryFind st.db.entries row.id wl with _ | e
          · rfl
          · simp only [hfs]
            rfl
      · simp only [Bool.not_eq_true] at h3
        simp [h3]

theorem firstHitT_word_irrel (st : EngineState) (ds : List String)
    (wl : String) (hfs : st.files = []) (v w : String) :
    firstHitT st ds wl v = firstHitT st ds wl w := by
  induction ds with
  | nil => rfl
  | cons x rest ih =>
    simp only [firstHitT, tryDictT_word_irrel st x wl hfs v w, ih]

/-- C2: with priority `[a, b]`, both registered and enabled (and neither
the built-in "ECDICT"), a sourceless lookup returns a's stored entry
whenever a's index has the lowercased word with non-redirect content; when
a's index lacks the word, the walk continues and returns b's entry — a
candidate without content never fails the whole lookup; and, with no
container files to fall back to, the result depends only on the
lowercased stripped query, so matching is case-insensitive. -/
theorem C2_priority_walk (st : EngineState) (a b w : String)
    (ra rb : DictionaryRecord)
    (hpr : st.config.priority = [a, b])
    (ha : a ≠ "ECDICT") (hb : b ≠ "ECDICT")
    (hra : pyFind st.config.dicts a = some ra) (haa : ra.is_active = true)
    (hrb : pyFind st.config.dicts b = some rb) (hba : rb.is_active = true) :
    (∀ rowA e c, dictRowFind st.db.dicts a = some rowA →
      entryFind st.db.entries rowA.id (pyWl w) = some e →
      e.content = some c → c ≠ "" → findLink c = none →
      lookup_word st w none 0 = some ⟨e.word, a, c⟩) ∧
    ((∀ rowA, dictRowFind st.db.dicts a = some rowA →
        entryFind st.db.entries rowA.id (pyWl w) = none) →
      ∀ rowB e c, dictRowFind st.db.dicts b = some rowB →
        entryFind st.db.entries rowB.id (pyWl w) = some e →
        e.content = some c → c ≠ "" → findLink c = none →
        lookup_word st w none 0 = some ⟨e.word, b, c⟩) ∧
    (st.files = [] → ∀ v d, pyWl v = pyWl w →
      lookup_word st v none d = lookup_word st w none d) := by
  refine ⟨?_, ?_, ?_⟩
  · intro rowA e c h4 h5 h6 h7 hlink
    unfold lookup_word
    rw [lookup_wordT_eq, if_neg (by omega : ¬ (3:Nat) < 0)]
    have hta : (tryDictT st a (pyWl w) w).1 = some (e.word, c) :=
      tryDictT_hit st a (pyWl w) w ra rowA e c ha hra haa h4 h5 h6 h7
    have htgt : targetDicts st none = [a, b] := hpr
    rw [htgt]
    rcases hr : tryDictT st a (pyWl w) w with ⟨r1, ev⟩
    rw [hr] at hta
    simp only at hta
    subst hta
    simp only [firstHitT, hr, hlink]
  · intro hmiss rowB e c h4 h5 h6 h7 hlink
    unfold lookup_word
    rw [lookup_wordT_eq, if_neg (by omega : ¬ (3:Nat) < 0)]
    have hta : (tryDictT st a (pyWl w) w).1 = none :=
      tryDictT_noentry st a (pyWl w) w hmiss
    have htb : (tryDictT st b (pyWl w) w).1 = some (e.word, c) :=
      tryDictT_hit st b (pyWl w) w rb rowB e c hb hrb hba h4 h5 h6 h7
    have htgt : targetDicts st none = [a, b] := hpr
    rw [htgt]
    rcases hr : tryDictT st a (pyWl w) w with ⟨r1, ev⟩
    rw [hr] at hta
    simp only at hta
    subst hta
    rcases hr2 : tryDictT st b (pyWl w) w with ⟨r2, ev2⟩
    rw [hr2] at htb
    simp only at htb
    subst htb
    simp only [firstHitT, hr, hr2, hlink]
  · intro hfs v d hvw
    unfold lookup_word
    rw [lookup_wordT_eq, lookup_wordT_eq]
    by_cases hd : 3 < d
    · rw [if_pos hd, if_pos hd]
    · rw [if_neg hd, if_neg hd, hvw,
        firstHitT_word_irrel st (targetDicts st none) (pyWl w) hfs v w]

/-- C2 witness: at `stW2` with priority `[A, B]` and both dictionaries
holding "running", the query "Running" returns A's entry. -/
theorem C2_witness :
    stW2.config.priority = ["A", "B"] ∧
    lookup_word stW2 "Running" none 0 = some ⟨"running", "A", "<b>run</b>"⟩ :=
  ⟨rfl,
    (C2_priority_walk stW2 "A" "B" "Running" ⟨"A", "A.mdx", 10, 1, true⟩
        ⟨"B", "B.mdx", 10, 1, true⟩ rfl (by decide) (by decide) rfl rfl rfl
        rfl).1
      ⟨1, "A", "A.mdx", 10, some 1, true⟩
      ⟨1, "running", "running", 0, 0, some "<b>run</b>"⟩ "<b>run</b>"
      rfl (by decide) rfl (by decide) (by decide)⟩

/-! ## C4: lemma candidates -/

/-- C4: the lemma candidate generator returns the empty list whenever the
lowercased word is an exact member of the suffix exception list (so no
reduction is ever attempted for such words), and every candidate it does
return has passed index validation: `word_exists` holds for it, any
candidate failing the check having been silently discarded. -/
theorem C4_lemma_candidates :
    (∀ st w, inExceptionList (pyLower w) = true →
      get_lemma_candidates st w true = []) ∧
    (∀ st w c, c ∈ get_lemma_candidates st w true → word_exists st c = true) := by
  constructor
  · intro st w h
    unfold get_lemma_candidates
    rw [if_pos h]
  · intro st w c hc
    unfold get_lemma_candidates at hc
    by_cases h : inExceptionList (pyLower w) = true
    · rw [if_pos h] at hc
      simp at hc
    · rw [if_neg h] at hc
      simp only [if_true, validate_lemma_candidates, List.mem_filter,
        Bool.and_eq_true] at hc
      exact hc.2.2

/-- C4 witness: "king" is on the exception list and yields no candidates,
so no "k" + "-ing" reduction is attempted. -/
theorem C4_witness :
    inExceptionList (pyLower "king") = true ∧
    get_lemma_candidates stEmpty "king" true = [] :=
  ⟨by decide, C4_lemma_candidates.1 stEmpty "king" (by decide)⟩

/-! ## Association-map lemmas for check_sources (C10) -/

theorem pySet_mem {κ α : Type} [DecidableEq κ] (m : List (κ × α)) (k : κ)
    (v : α) (q : κ × α) (h : q ∈ pySet m k v) : q ∈ m ∨ q = (k, v) := by
  induction m with
  | nil => simpa [pySet] using h
  | cons p rest ih =>
    by_cases hp : p.1 = k
    · rw [pySet, if_pos hp] at h
      rcases List.mem_cons.mp h with rfl | hh
      · exact Or.inr rfl
      · exact Or.inl (List.mem_cons_of_mem p hh)
    · rw [pySet, if_neg hp] at h
      rcases List.mem_cons.mp h with rfl | hh
      · exact Or.inl (List.mem_cons_self _ _)
      · rcases ih hh with hh2 | hh2
        · exact Or.inl (List.mem_cons_of_mem p hh2)
        · exact Or.inr hh2

theorem pySet_mem_self {κ α : Type} [DecidableEq κ] (m : List (κ × α))
    (k : κ) (v : α) : (k, v) ∈ pySet m k v := by
  induction m with
  | nil => simp [pySet]
  | cons p rest ih =>
    by_cases hp : p.1 = k
    · rw [pySet, if_pos hp]
      exact List.mem_cons_self _ _
    · rw [pySet, if_neg hp]
      exact List.mem_cons_of_mem p ih

theorem pySet_mem_preserve {κ α : Type} [DecidableEq κ] (m : List (κ × α))
    (k id : κ) (v w : α) (h : (id, w) ∈ m) (hk : k ≠ id) :
    (id, w) ∈ pySet m k v := by
  induction m with
  | nil => cases h
  | cons p rest ih =>
    by_cases hp : p.1 = k
    · rw [pySet, if_pos hp]
      rcases List.mem_cons.mp h with rfl | hh
      · exact absurd (hp.symm : k = id) hk
      · exact List.mem_cons_of_mem _ hh
    · rw [pySet, if_neg hp]
      rcases List.mem_cons.mp h with rfl | hh
      · exact List.mem_cons_self _ _
      · exact List.mem_cons_of_mem p (ih hh)

theorem pyFind_mem {κ α : Type} [DecidableEq κ] (m : List (κ × α)) (k : κ)
    (v : α) (h : pyFind m k = some v) : (k, v) ∈ m := by
  induction m with
  | nil => simp [pyFind] at h
  | cons p rest ih =>
    by_cases hp : p.1 = k
    · rw [pyFind, if_pos hp] at h
      have : p = (k, v) := by
        rcases p with ⟨p1, p2⟩
        simp at hp h
        exact Prod.mk.injEq .. ▸ ⟨hp, h⟩
      exact this ▸ List.mem_cons_self _ _
    · rw [pyFind, if_neg hp] at h
      exact List.mem_cons_of_mem p (ih h)

theorem mem_pyFind_nodup {κ α : Type} [DecidableEq κ] (m : List (κ × α))
    (k : κ) (v : α) (hnd : (m.map Prod.fst).Nodup) (h : (k, v) ∈ m) :
    pyFind m k = some v := by
  induction m with
  | nil => cases h
  | cons p rest ih =>
    rw [List.map_cons, List.nodup_cons] at hnd
    rcases List.mem_cons.mp h with rfl | hh
    · rw [pyFind, if_pos rfl]
    · have hp : p.1 ≠ k := by
        intro hk
        exact hnd.1 (hk ▸ List.mem_map.mpr ⟨(k, v), hh, rfl⟩)
      rw [pyFind, if_neg hp]
      exact ih hnd.2 hh

theorem dictRowFind_mem_name (l : List DictRow) (n : String) (row : DictRow)
    (h : dictRowFind l n = some row) : row ∈ l ∧ row.name = n := by
  induction l with
  | nil => simp [dictRowFind] at h
  | cons x rest ih =>
    by_cases hx : x.name = n
    · rw [dictRowFind, if_pos hx] at h
      have : x = row := Option.some.injEq .. ▸ h
      exact ⟨this ▸ List.mem_cons_self _ _, this ▸ hx⟩
    · rw [dictRowFind, if_neg hx] at h
      obtain ⟨h1, h2⟩ := ih h
      exact ⟨List.mem_cons_of_mem x h1, h2⟩

theorem rows_eq_of_id (db : IndexDB)
    (hids : (db.dicts.map DictRow.id).Nodup) (r1 r2 : DictRow)
    (h1 : r1 ∈ db.dicts) (h2 : r2 ∈ db.dicts) (h : r1.id = r2.id) :
    r1 = r2 := by
  exact List.inj_on_of_nodup_map hids h1 h2 h

/-! ## initAvail fold lemmas -/

theorem initFold_find_notmem (l : List String) (m : List (String × Bool))
    (n : String) (h : n ∉ l) :
    pyFind (l.foldl (fun m nm =>
      if nm = "ECDICT" then m else pySet m nm false) m) n = pyFind m n := by
  induction l generalizing m with
  | nil => rfl
  | cons x rest ih =>
    have hx : x ≠ n := fun hh => h (hh ▸ List.mem_cons_self _ _)
    have hrest : n ∉ rest := fun hh => h (List.mem_cons_of_mem x hh)
    rw [List.foldl_cons]
    by_cases he : x = "ECDICT"
    · rw [if_pos he]
      exact ih _ hrest
    · rw [if_neg he, ih _ hrest]
      exact pyFind_pySet_ne m x n false (Ne.symm hx)

theorem initFold_find_mem (l : List String) (m : List (String × Bool))
    (n : String) (hn : n ∈ l) (hne : n ≠ "ECDICT") :
    pyFind (l.foldl (fun m nm =>
      if nm = "ECDICT" then m else pySet m nm false) m) n = some false := by
  induction l generalizing m with
  | nil => cases hn
  | cons x rest ih =>
    rw [List.foldl_cons]
    by_cases hrest : n ∈ rest
    · by_cases he : x = "ECDICT"
      · rw [if_pos he]
        exact ih _ hrest
      · rw [if_neg he]
        exact ih _ hrest
    · have hx : x = n := by
        rcases List.mem_cons.mp hn with rfl | hh
        · rfl
        · exact absurd hh hrest
      subst hx
      rw [if_neg hne, initFold_find_notmem rest _ x hrest]
      exact pyFind_pySet_self m x false

theorem initFold_val_false (l : List String) (m : List (String × Bool))
    (n : String) (b : Bool)
    (hm : ∀ b2, pyFind m n = some b2 → b2 = false)
    (h : pyFind (l.foldl (fun m nm =>
      if nm = "ECDICT" then m else pySet m nm false) m) n = some b) :
    b = false := by
  induction l generalizing m with
  | nil => exact hm b h
  | cons x rest ih =>
    rw [List.foldl_cons] at h
    by_cases he : x = "ECDICT"
    · rw [if_pos he] at h
      exact ih _ hm h
    · rw [if_neg he] at h
      refine ih _ ?_ h
      intro b2 hb2
      by_cases hx : n = x
      · subst hx
        rw [pyFind_pySet_self] at hb2
        exact (Option.some.injEq .. ▸ hb2).symm
      · rw [pyFind_pySet_ne m x n false hx] at hb2
        exact hm b2 hb2

theorem initFold_dom (l : List String) (m : List (String × Bool))
    (n : String) (b : Bool)
    (h : pyFind (l.foldl (fun m nm =>
      if nm = "ECDICT" then m else pySet m nm false) m) n = some b) :
    (pyFind m n).isSome = true ∨ (n ∈ l ∧ n ≠ "ECDICT") := by
  induction l generalizing m with
  | nil => exact Or.inl (h ▸ rfl)
  | cons x rest ih =>
    rw [List.foldl_cons] at h
    by_cases he : x = "ECDICT"
    · rw [if_pos he] at h
      rcases ih _ h with hh | hh
      · exact Or.inl hh
      · exact Or.inr ⟨List.mem_cons_of_mem x hh.1, hh.2⟩
    · rw [if_neg he] at h
      rcases ih _ h with hh | hh
      · by_cases hx : n = x
        · exact Or.inr ⟨hx ▸ List.mem_cons_self _ _, hx ▸ he⟩
        · rw [pyFind_pySet_ne m x n false hx] at hh
          exact Or.inl hh
      · exact Or.inr ⟨List.mem_cons_of_mem x hh.1, hh.2⟩

/-! ## check_sources True-setting fold lemmas -/

theorem csfold_isSome (entries : List EntryRow) (wl : String)
    (l : List (Nat × String)) (m : List (String × Bool)) (n : String)
    (h : (pyFind m n).isSome = true) :
    (pyFind (l.foldl (fun m p =>
      if hasEntry entries p.1 wl then pySet m p.2 true else m) m) n).isSome =
      true := by
  induction l generalizing m with
  | nil => exact h
  | cons p rest ih =>
    rw [List.foldl_cons]
    by_cases hp : hasEntry entries p.1 wl
    · rw [if_pos hp]
      refine ih _ ?_
      by_cases hn : n = p.2
      · subst hn
        rw [pyFind_pySet_self]
        rfl
      · rw [pyFind_pySet_ne m p.2 n true hn]
        exact h
    · rw [if_neg hp]
      exact ih _ h

theorem csfold_true_stable (entries : List EntryRow) (wl : String)
    (l : List (Nat × String)) (m : List (String × Bool)) (n : String)
    (h : pyFind m n = some true) :
    pyFind (l.foldl (fun m p =>
      if hasEntry entries p.1 wl then pySet m p.2 true else m) m) n =
      some true := by
  induction l generalizing m with
  | nil => exact h
  | cons p rest ih =>
    rw [List.foldl_cons]
    by_cases hp : hasEntry entries p.1 wl
    · rw [if_pos hp]
      refine ih _ ?_
      by_cases hn : n = p.2
      · subst hn
        exact pyFind_pySet_self m p.2 true
      · rw [pyFind_pySet_ne m p.2 n true hn]
        exact h
    · rw [if_neg hp]
      exact ih _ h

theorem csfold_hit (entries : List EntryRow) (wl : String)
    (l : List (Nat × String)) (id : Nat) (n : String) (hmem : (id, n) ∈ l)
    (hE : hasEntry entries id wl = true) :
    ∀ m, pyFind (l.foldl (fun m p =>
      if hasEntry entries p.1 wl then pySet m p.2 true else m) m) n =
      some true := by
  induction l with
  | nil => cases hmem
  | cons p rest ih =>
    intro m
    rw [List.foldl_cons]
    rcases List.mem_cons.mp hmem with heq | hmem2
    · have hp1 : p.1 = id := by rw [← heq]
      have hp2 : p.2 = n := by rw [← heq]
      rw [hp1, hp2, if_pos hE]
      exact csfold_true_stable entries wl rest _ n (pyFind_pySet_self m n true)
    · by_cases hp : hasEntry entries p.1 wl
      · rw [if_pos hp]
        exact ih hmem2 _
      · rw [if_neg hp]
        exact ih hmem2 _

theorem csfold_true_src (entries : List EntryRow) (wl : String)
    (l : List (Nat × String)) (m : List (String × Bool)) (n : String)
    (h : pyFind (l.foldl (fun m p =>
      if hasEntry entries p.1 wl then pySet m p.2 true else m) m) n =
      some true) :
    pyFind m n = some true ∨
      ∃ id, (id, n) ∈ l ∧ hasEntry entries id wl = true := by
  induction l generalizing m with
  | nil => exact Or.inl h
  | cons p rest ih =>
    rw [List.foldl_cons] at h
    by_cases hp : hasEntry entries p.1 wl
    · rw [if_pos hp] at h
      rcases ih _ h with hh | ⟨id, hid, hE⟩
      · by_cases hn : n = p.2
        · exact Or.inr ⟨p.1, hn ▸ List.mem_cons_self _ _, hp⟩
        · rw [pyFind_pySet_ne m p.2 n true hn] at hh
          exact Or.inl hh
      · exact Or.inr ⟨id, List.mem_cons_of_mem p hid, hE⟩
    · rw [if_neg hp] at h
      rcases ih _ h with hh | ⟨id, hid, hE⟩
      · exact Or.inl hh
      · exact Or.inr ⟨id, List.mem_cons_of_mem p hid, hE⟩

theorem csfold_dom (entries : List EntryRow) (wl : String)
    (l : List (Nat × String)) (n : String) (b : Bool) :
    ∀ m, pyFind (l.foldl (fun m p =>
      if hasEntry entries p.1 wl then pySet m p.2 true else m) m) n =
      some b →
    (pyFind m n).isSome = true ∨
      (b = true ∧ ∃ id, (id, n) ∈ l ∧ hasEntry entries id wl = true) := by
  induction l with
  | nil =>
    intro m h
    exact Or.inl (h ▸ rfl)
  | cons p rest ih =>
    intro m h
    rw [List.foldl_cons] at h
    by_cases hp : hasEntry entries p.1 wl
    · rw [if_pos hp] at h
      by_cases hn : n = p.2
      · have htrue : pyFind (rest.foldl (fun m p =>
            if hasEntry entries p.1 wl then pySet m p.2 true else m)
              (pySet m p.2 true)) n = some true := by
          rw [hn]
          exact csfold_true_stable entries wl rest _ p.2
            (pyFind_pySet_self m p.2 true)
        have hb : b = true := by
          rw [h] at htrue
          exact Option.some.inj htrue
        refine Or.inr ⟨hb, p.1, ?_, hp⟩
        rw [hn]
        exact List.mem_cons_self _ _
      · rcases ih _ h with hh | ⟨hb, id, hid, hE⟩
        · rw [pyFind_pySet_ne m p.2 n true hn] at hh
          exact Or.inl hh
        · exact Or.inr ⟨hb, id, List.mem_cons_of_mem p hid, hE⟩
    · rw [if_neg hp] at h
      rcases ih _ h with hh | ⟨hb, id, hid, hE⟩
      · exact Or.inl hh
      · exact Or.inr ⟨hb, id, List.mem_cons_of_mem p hid, hE⟩

/-! ## activeDicts fold lemmas -/

theorem afold_mem_prop (st : EngineState)
    (l : List (String × DictionaryRecord))
    (hsub : ∀ p ∈ l, p ∈ st.config.dicts) :
    ∀ acc, (∀ q ∈ acc, ∃ rec, (q.2, rec) ∈ st.config.dicts ∧
      rec.is_active = true ∧ ∃ row, dictRowFind st.db.dicts q.2 = some row ∧
        row.id = q.1) →
    ∀ q ∈ l.foldl (fun m p =>
      if p.2.is_active then
        match dictRowFind st.db.dicts p.1 with
        | some row => pySet m row.id p.1
        | none => m
      else m) acc,
      ∃ rec, (q.2, rec) ∈ st.config.dicts ∧ rec.is_active = true ∧
        ∃ row, dictRowFind st.db.dicts q.2 = some row ∧ row.id = q.1 := by
  induction l with
  | nil =>
    intro acc hacc
    exact hacc
  | cons p rest ih =>
    intro acc hacc q hq
    rw [List.foldl_cons] at hq
    have hsubrest : ∀ p2 ∈ rest, p2 ∈ st.config.dicts :=
      fun p2 hp2 => hsub p2 (List.mem_cons_of_mem p hp2)
    refine ih hsubrest _ ?_ q hq
    intro q2 hq2
    by_cases hact : p.2.is_active
    · rw [if_pos hact] at hq2
      rcases hrow : dictRowFind st.db.dicts p.1 with _ | row
      · rw [hrow] at hq2
        exact hacc q2 hq2
      · rw [hrow] at hq2
        rcases pySet_mem acc row.id p.1 q2 hq2 with hh | rfl
        · exact hacc q2 hh
        · exact ⟨p.2, hsub p (List.mem_cons_self _ _), hact, row, hrow, rfl⟩
    · rw [if_neg hact] at hq2
      exact hacc q2 hq2

theorem afold_preserve (st : EngineState)
    (l : List (String × DictionaryRecord))
    (hids : (st.db.dicts.map DictRow.id).Nodup)
    (row : DictRow) (hrowdb : row ∈ st.db.dicts) (n : String)
    (hrown : row.name = n) (hnot : ∀ p ∈ l, p.1 ≠ n) :
    ∀ acc, (row.id, n) ∈ acc →
    (row.id, n) ∈ l.foldl (fun m p =>
      if p.2.is_active then
        match dictRowFind st.db.dicts p.1 with
        | some row => pySet m row.id p.1
        | none => m
      else m) acc := by
  induction l with
  | nil =>
    intro acc hin
    exact hin
  | cons p rest ih =>
    intro acc hin
    rw [List.foldl_cons]
    have hnotrest : ∀ p2 ∈ rest, p2.1 ≠ n :=
      fun p2 hp2 => hnot p2 (List.mem_cons_of_mem p hp2)
    by_cases hact : p.2.is_active
    · rw [if_pos hact]
      rcases hrow2 : dictRowFind st.db.dicts p.1 with _ | row2
      · exact ih hnotrest _ hin
      · refine ih hnotrest _ ?_
        obtain ⟨hmem2, hname2⟩ := dictRowFind_mem_name _ _ _ hrow2
        have hne : row2.id ≠ row.id := by
          intro heq
          have : row2 = row := rows_eq_of_id st.db hids row2 row hmem2 hrowdb heq
          exact hnot p (List.mem_cons_self _ _) (by rw [← hname2, this, hrown])
        exact pySet_mem_preserve acc row2.id row.id p.1 n hin hne
    · rw [if_neg hact]
      exact ih hnotrest _ hin

theorem afold_sets (st : EngineState)
    (l : List (String × DictionaryRecord))
    (hids : (st.db.dicts.map DictRow.id).Nodup)
    (n : String) (rec : DictionaryRecord) (row : DictRow)
    (hact : rec.is_active = true)
    (hrow : dictRowFind st.db.dicts n = some row)
    (hmem : (n, rec) ∈ l) (hnd : (l.map Prod.fst).Nodup) :
    ∀ acc, (row.id, n) ∈ l.foldl (fun m p =>
      if p.2.is_active then
        match dictRowFind st.db.dicts p.1 with
        | some row => pySet m row.id p.1
        | none => m
      else m) acc := by
  induction l with
  | nil => cases hmem
  | cons p rest ih =>
    intro acc
    rw [List.map_cons, List.nodup_cons] at hnd
    rw [List.foldl_cons]
    rcases List.mem_cons.mp hmem with heq | hmem2
    · have hp1 : p.1 = n := by rw [← heq]
      have hp2 : p.2 = rec := by rw [← heq]
      rw [hp2, if_pos hact, hp1, hrow]
      have hnotrest : ∀ p2 ∈ rest, p2.1 ≠ n := by
        intro p2 hp2mem hcontra
        exact hnd.1 (hp1 ▸ hcontra ▸ List.mem_map.mpr ⟨p2, hp2mem, rfl⟩)
      obtain ⟨hrowdb, hrown⟩ := dictRowFind_mem_name _ _ _ hrow
      exact afold_preserve st rest hids row hrowdb n hrown hnotrest _
        (pySet_mem_self acc row.id n)
    · by_cases hact2 : p.2.is_active
      · rw [if_pos hact2]
        rcases hrow2 : dictRowFind st.db.dicts p.1 with _ | row2
        · exact ih hmem2 hnd.2 _
        · exact ih hmem2 hnd.2 _
      · rw [if_neg hact2]
        exact ih hmem2 hnd.2 _

/-! ## C10: check_sources -/

/-- C10 counterexample: at `stW10`, the dictionary "A" is registered,
enabled and indexed for "dog" but absent from the priority list — yet
`check_sources` returns it as a key (mapped to true), so the key set is
not the priority list minus "ECDICT". -/
theorem C10_counterexample :
    check_sources stW10 "dog" = [("B", false), ("A", true)] ∧
    "A" ∉ stW10.config.priority := by
  exact ⟨by decide, by decide⟩

/-- C10 amended: assuming unique registry names and unique descriptor ids,
the map returned by `check_sources` contains every priority-list name
other than "ECDICT"; a key maps to true exactly when its dictionary is
registered, enabled, and owns an index entry for the lowercased word
(such a dictionary appears as a true key even when absent from the
priority list); every key is either a priority name (other than
"ECDICT") or such an available dictionary; and every priority name that
is unregistered, disabled, or lacks an entry maps to false. -/
theorem C10_check_sources_amended (st : EngineState) (w : String)
    (hnames : (st.config.dicts.map Prod.fst).Nodup)
    (hids : (st.db.dicts.map DictRow.id).Nodup) :
    (∀ n ∈ st.config.priority, n ≠ "ECDICT" →
      ∃ b, pyFind (check_sources st w) n = some b) ∧
    (∀ n, pyFind (check_sources st w) n = some true ↔
      nameHasEntry st (pyWl w) n = true) ∧
    (∀ n b, pyFind (check_sources st w) n = some b →
      (n ∈ st.config.priority ∧ n ≠ "ECDICT") ∨
        nameHasEntry st (pyWl w) n = true) ∧
    (∀ n ∈ st.config.priority, n ≠ "ECDICT" →
      nameHasEntry st (pyWl w) n = false →
      pyFind (check_sources st w) n = some false) := by
  have hcs : check_sources st w =
      if (activeDicts st).isEmpty then initAvail st.config.priority
      else (activeDicts st).foldl (fun m p =>
        if hasEntry st.db.entries p.1 (pyWl w) then pySet m p.2 true else m)
        (initAvail st.config.priority) := rfl
  have hvalF : ∀ n b, pyFind (initAvail st.config.priority) n = some b →
      b = false := by
    intro n b h
    exact initFold_val_false st.config.priority [] n b
      (fun b2 h2 => by simp [pyFind] at h2) h
  have hdomA : ∀ n b, pyFind (initAvail st.config.priority) n = some b →
      n ∈ st.config.priority ∧ n ≠ "ECDICT" := by
    intro n b h
    rcases initFold_dom st.config.priority [] n b h with hh | hh
    · simp [pyFind] at hh
    · exact hh
  have hNHEof : ∀ id n, (id, n) ∈ activeDicts st →
      hasEntry st.db.entries id (pyWl w) = true →
      nameHasEntry st (pyWl w) n = true := by
    intro id n hmem hE
    obtain ⟨rec, hrecmem, hact, row, hrow, hid⟩ :=
      afold_mem_prop st st.config.dicts (fun p hp => hp) []
        (fun q hq => by cases hq) (id, n) hmem
    unfold nameHasEntry
    rw [mem_pyFind_nodup st.config.dicts n rec hnames hrecmem, hrow]
    simp only [hact, Bool.true_and]
    rw [hid]
    exact hE
  have hNHEto : ∀ n, nameHasEntry st (pyWl w) n = true →
      pyFind (check_sources st w) n = some true := by
    intro n hn
    unfold nameHasEntry at hn
    rcases hrec : pyFind st.config.dicts n with _ | rec
    · rw [hrec] at hn
      cases hn
    · rw [hrec] at hn
      simp only [Bool.and_eq_true] at hn
      rcases hrow : dictRowFind st.db.dicts n with _ | row
      · rw [hrow] at hn
        cases hn.2
      · rw [hrow] at hn
        obtain ⟨hact, hE⟩ := hn
        have hmemact : (row.id, n) ∈ activeDicts st :=
          afold_sets st st.config.dicts hids n rec row hact hrow
            (pyFind_mem st.config.dicts n rec hrec) hnames []
        have hemp : (activeDicts st).isEmpty = false := by
          rcases hl : activeDicts st with _ | ⟨x, xs⟩
          · rw [hl] at hmemact
            cases hmemact
          · rfl
        rw [hcs, hemp]
        simp only [Bool.false_eq_true, if_false]
        exact csfold_hit st.db.entries (pyWl w) (activeDicts st) row.id n
          hmemact hE (initAvail st.config.priority)
  refine ⟨?_, ?_, ?_, ?_⟩
  · intro n hn hne
    have hA : pyFind (initAvail st.config.priority) n = some false :=
      initFold_find_mem st.config.priority [] n hn hne
    rw [hcs]
    by_cases hemp : (activeDicts st).isEmpty
    · rw [if_pos hemp]
      exact ⟨false, hA⟩
    · rw [if_neg hemp]
      have : (pyFind ((activeDicts st).foldl (fun m p =>
          if hasEntry st.db.entries p.1 (pyWl w) then pySet m p.2 true else m)
          (initAvail st.config.priority)) n).isSome = true :=
        csfold_isSome st.db.entries (pyWl w) (activeDicts st) _ n
          (by rw [hA]; rfl)
      exact Option.isSome_iff_exists.mp this
  · intro n
    constructor
    · intro h
      rw [hcs] at h
      by_cases hemp : (activeDicts st).isEmpty
      · rw [if_pos hemp] at h
        cases hvalF n true h
      · rw [if_neg hemp] at h
        rcases csfold_true_src st.db.entries (pyWl w) (activeDicts st) _ n h
          with hh | ⟨id, hidmem, hE⟩
        · cases hvalF n true hh
        · exact hNHEof id n hidmem hE
    · exact hNHEto n
  · intro n b h
    rw [hcs] at h
    by_cases hemp : (activeDicts st).isEmpty
    · rw [if_pos hemp] at h
      exact Or.inl (hdomA n b h)
    · rw [if_neg hemp] at h
      rcases csfold_dom st.db.entries (pyWl w) (activeDicts st) n b _ h with
        hh | ⟨hb, id, hidmem, hE⟩
      · obtain ⟨b2, hb2⟩ := Option.isSome_iff_exists.mp hh
        exact Or.inl (hdomA n b2 hb2)
      · exact Or.inr (hNHEof id n hidmem hE)
  · intro n hn hne hfalse
    have hA : pyFind (initAvail st.config.priority) n = some false :=
      initFold_find_mem st.config.priority [] n hn hne
    rw [hcs]
    by_cases hemp : (activeDicts st).isEmpty
    · rw [if_pos hemp]
      exact hA
    · rw [if_neg hemp]
      have hsome : (pyFind ((activeDicts st).foldl (fun m p =>
          if hasEntry st.db.entries p.1 (pyWl w) then pySet m p.2 true else m)
          (initAvail st.config.priority)) n).isSome = true :=
        csfold_isSome st.db.entries (pyWl w) (activeDicts st) _ n
          (by rw [hA]; rfl)
      obtain ⟨b, hb⟩ := Option.isSome_iff_exists.mp hsome
      cases b with
      | false => exact hb
      | true =>
        exfalso
        have : nameHasEntry st (pyWl w) n = true := by
          rcases csfold_true_src st.db.entries (pyWl w) (activeDicts st) _ n hb
            with hh | ⟨id, hidmem, hE⟩
          · cases hvalF n true hh
          · exact hNHEof id n hidmem hE
        rw [hfalse] at this
        cases this

/-- C10 witness for the amended theorem: at `stW10`, the priority name "B"
is present as a key of the result. -/
theorem C10_witness :
    (stW10.config.dicts.map Prod.fst).Nodup ∧
    ∃ b, pyFind (check_sources stW10 "dog") "B" = some b :=
  ⟨by decide,
    (C10_check_sources_amended stW10 "dog" (by decide) (by decide)).1 "B"
      (by decide) (by decide)⟩

end Duodushu
